import Mathlib

/-!
# coollabs-cdn: the request handler and the asset loaders

A shallow embedding of `main.go`.  Go strings are Lean strings, byte slices are
lists of `UInt8`, Go maps are functions into `Option` (a missing key is `none`),
and the `http.ResponseWriter` handed to the handler is a record that the handler
updates statement by statement.  A call of `http.ServeContent` ends the handler
and is recorded with its arguments.  The standard-library functions whose
values the program uses but does not define (`md5.Sum`, the non-ASCII half of
`unicode.ToLower`, `filepath.Base`, the HTML note written by `http.Redirect`)
are the fields of a record `Lib`, so every theorem below holds for whatever
those functions compute.  An embedded file system is a tree of entries, each
carrying the outcome of `ReadFile` or `ReadDir` on it.  The wall clock is a
function `clock` from the number of a call of `time.Now()` to the instant it
returns, and the loaders count the calls they make.
-/

namespace CoollabsCdn

/-! ## Data model -/

/-- Byte slices (`[]byte`). -/
abbrev Bytes := List UInt8

/-- Instants returned by `time.Now()`. -/
abbrev Time := Nat

/-- Go `error` values that are not nil, identified with their message. -/
abbrev Error := String

/-- The array type `[16]byte` returned by `md5.Sum`. -/
abbrev Digest := { l : List UInt8 // l.length = 16 }

/-- There are finitely many bytes. -/
instance : Finite UInt8 :=
  Finite.of_injective (fun u : UInt8 => u.val) (fun _ _ h => UInt8.eq_of_val_eq h)

/-- There are finitely many digests. -/
instance : Finite Digest :=
  (List.finite_length_eq UInt8 16).to_subtype

/-- The struct `fileData` of `main.go`. -/
structure fileData where
  content : Bytes
  modTime : Time
deriving DecidableEq

/-- The map `files` (`map[string]*fileData`); the loaders never store a nil pointer. -/
abbrev FileMap := String → Option fileData

/-- The map `etags` (`map[string]string`). -/
abbrev EtagMap := String → Option String

/-- Standard-library functions the program calls but does not define. -/
structure Lib where
  /-- The function `md5.Sum`. -/
  md5Sum : Bytes → Digest
  /-- The function `unicode.ToLower` on runes outside ASCII. -/
  lowerNonASCII : Char → Char
  /-- The function `filepath.Base`. -/
  filepathBase : String → String
  /-- The HTML note `http.Redirect` writes as the body of a GET redirect. -/
  redirectNote : String → Nat → Bytes

/-! ## Strings -/

/-- The function `strings.HasSuffix`. -/
def hasSuffix (s suffix : String) : Bool :=
  suffix.data.isSuffixOf s.data

/-- The function `unicode.ToLower`: ASCII letters are folded by the fixed
offset, other runes by the library table. -/
def unicodeToLower (lib : Lib) (c : Char) : Char :=
  if c.val < 128 then c.toLower else lib.lowerNonASCII c

/-- The function `strings.ToLower`: the rune-wise image under `unicode.ToLower`. -/
def toLower (lib : Lib) (s : String) : String :=
  ⟨s.data.map (unicodeToLower lib)⟩

/-- The conversion `[]byte(s)` of a string: its UTF-8 bytes. -/
def stringBytes (s : String) : Bytes :=
  s.data.flatMap String.utf8EncodeChar

/-- One lowercase hexadecimal digit. -/
def hexDigit (n : Nat) : Char :=
  "0123456789abcdef".data.getD n '0'

/-- The verb `%x` on one byte: two lowercase hexadecimal digits. -/
def hexByte (b : UInt8) : List Char :=
  [hexDigit (b.toNat / 16), hexDigit (b.toNat % 16)]

/-- Every character of the string is ASCII. -/
def isASCII (s : String) : Bool :=
  s.data.all (fun c => c.val < 128)

/-- The function `hexEscapeNonASCII` of `net/http`, which `http.Redirect`
applies to the URL before storing it in `Location`: every byte outside ASCII
becomes a percent sign and the two lowercase hexadecimal digits of the byte;
ASCII bytes are kept. -/
def hexEscapeNonASCII (s : String) : String :=
  ⟨s.data.flatMap (fun c =>
    if c.val < 128 then [c]
    else (String.utf8EncodeChar c).flatMap (fun b => '%' :: hexByte b))⟩

/-! ## HTTP headers, requests, response writers -/

/-- The type `http.Header`: each header name maps to its list of values
(no values when the name is absent).  Names are compared as written; the
program only uses the fixed literals below. -/
abbrev Header := String → List String

/-- The empty header map. -/
def Header.empty : Header := fun _ => []

/-- The method `Header.Get`: the first value of the name, or `""`. -/
def Header.Get (h : Header) (key : String) : String :=
  (h key).headD ""

/-- The method `Header.Set`: the name now has exactly this one value. -/
def Header.Set (h : Header) (key value : String) : Header :=
  fun k => if k = key then [value] else h k

/-- The part of `*http.Request` the handler reads: `r.Method`, `r.URL.Path`
and `r.Header`. -/
structure Request where
  Method : String
  Path : String
  Header : Header

/-- The arguments of a call `http.ServeContent(w, r, name, modtime, content)`. -/
structure ServeCall where
  request : Request
  name : String
  modtime : Time
  content : Bytes

/-- The state of an `http.ResponseWriter`: the live header map `w.Header()`,
whether the status line has been written and with which code, the header map
as it stood when the status line was written (later changes of the live map do
not reach the client), the body bytes written so far, and the pending call of
`http.ServeContent` if the handler ended by delegating to it. -/
structure ResponseWriter where
  header : Header
  wroteHeader : Bool
  status : Nat
  sentHeader : Header
  body : Bytes
  served : Option ServeCall

/-- The response writer the server hands to the handler for a new request. -/
def ResponseWriter.new : ResponseWriter :=
  { header := Header.empty, wroteHeader := false, status := 0,
    sentHeader := Header.empty, body := [], served := none }

/-- The statement `w.Header().Set(key, value)`. -/
def ResponseWriter.SetHeader (w : ResponseWriter) (key value : String) : ResponseWriter :=
  { w with header := w.header.Set key value }

/-- The method `w.WriteHeader(code)`: the first call fixes status and headers,
a repeated call is ignored. -/
def ResponseWriter.WriteHeader (w : ResponseWriter) (code : Nat) : ResponseWriter :=
  if w.wroteHeader then w
  else { w with wroteHeader := true, status := code, sentHeader := w.header }

/-- The method `w.Write(b)`: writes status 200 first if no status was written. -/
def ResponseWriter.Write (w : ResponseWriter) (b : Bytes) : ResponseWriter :=
  let w1 := w.WriteHeader 200
  { w1 with body := w1.body ++ b }

/-- The headers of the response: those sent with the status line, or, when the
handler delegated to `http.ServeContent` without writing a status, the header
map it prepared for that call. -/
def ResponseWriter.responseHeader (w : ResponseWriter) : Header :=
  if w.wroteHeader then w.sentHeader else w.header

/-- The constants `http.StatusOK`, `http.StatusNoContent`,
`http.StatusMovedPermanently`, `http.StatusFound`, `http.StatusNotModified`. -/
def StatusOK : Nat := 200
def StatusNoContent : Nat := 204
def StatusMovedPermanently : Nat := 301
def StatusFound : Nat := 302
def StatusNotModified : Nat := 304

/-- The function `http.Redirect` for an absolute `url` (every call site passes
a URL that starts with `https://`): it sets `Location` to the URL with its
bytes outside ASCII percent-escaped, sets an HTML content type for GET and HEAD
when none was set, writes the status line and, for GET, the HTML note. -/
def Redirect (lib : Lib) (w : ResponseWriter) (r : Request) (url : String) (code : Nat) :
    ResponseWriter :=
  let hadCT : Bool := !(w.header "Content-Type").isEmpty
  let w1 := w.SetHeader "Location" (hexEscapeNonASCII url)
  let w2 := if !hadCT && (r.Method == "GET" || r.Method == "HEAD") then
      w1.SetHeader "Content-Type" "text/html; charset=utf-8" else w1
  let w3 := w2.WriteHeader code
  if !hadCT && r.Method == "GET" then w3.Write (lib.redirectNote url code) else w3

/-- The call `http.ServeContent(w, r, name, modtime, content)`: the handler
ends here and the library writes the response from the prepared header map. -/
def ServeContent (w : ResponseWriter) (r : Request) (name : String) (modtime : Time)
    (content : Bytes) : ResponseWriter :=
  { w with served := some { request := r, name := name, modtime := modtime,
                            content := content } }

/-! ## `getContentType` and `isImageFile` -/

/-- The function `isImageFile` of `main.go`. -/
def isImageFile (lib : Lib) (filename : String) : Bool :=
  let extensions := [".png", ".jpg", ".jpeg", ".gif", ".webp", ".svg", ".bmp", ".ico"]
  extensions.any (fun ext => hasSuffix (toLower lib filename) ext)

/-- The function `getContentType` of `main.go`. -/
def getContentType (lib : Lib) (path : String) : String :=
  let lowerPath := toLower lib path
  if hasSuffix lowerPath ".json" then "application/json"
  else if hasSuffix lowerPath ".png" then "image/png"
  else if hasSuffix lowerPath ".jpg" || hasSuffix lowerPath ".jpeg" then "image/jpeg"
  else if hasSuffix lowerPath ".gif" then "image/gif"
  else if hasSuffix lowerPath ".webp" then "image/webp"
  else if hasSuffix lowerPath ".svg" then "image/svg+xml"
  else if hasSuffix lowerPath ".bmp" then "image/bmp"
  else if hasSuffix lowerPath ".ico" then "image/x-icon"
  else ""

/-! ## `handleRequest` -/

/-- The backward-compatibility switch of `handleRequest` (lines 202-207): the
value of `r.URL.Path` after it. -/
def aliasRewrite (path : String) : String :=
  if path = "/coolify/versions.json" then "/versions.json"
  else if path = "/coolify/upgrade.sh" then "/upgrade.sh"
  else path

/-- The function `handleRequest` of `main.go`. -/
def handleRequest (lib : Lib) (w : ResponseWriter) (r : Request) (baseFQDN : String)
    (files : FileMap) (etags : EtagMap) : ResponseWriter :=
  -- Set CORS headers
  let w := w.SetHeader "Access-Control-Allow-Origin" "*"
  let w := w.SetHeader "Access-Control-Allow-Methods" "GET, HEAD, OPTIONS"
  let w := w.SetHeader "Access-Control-Allow-Headers"
    "Origin, X-Requested-With, Content-Type, Accept"
  -- Handle OPTIONS requests for CORS preflight
  if r.Method = "OPTIONS" then
    w.WriteHeader StatusNoContent
  -- Handle root path redirect
  else if r.Path = "/" then
    Redirect lib w r ("https://" ++ baseFQDN) StatusFound
  -- Handle health check
  else if r.Path = "/health" then
    let w := w.SetHeader "Content-Type" "text/plain"
    let w := w.WriteHeader StatusOK
    w.Write (stringBytes "healthy\n")
  else
    -- Backward compatibility: serve files at old /coolify/ paths
    let r : Request := { r with Path := aliasRewrite r.Path }
    -- Redirect /coolify/install.sh to cdn.coolify.io
    if r.Path = "/coolify/install.sh" then
      Redirect lib w r "https://cdn.coolify.io/install.sh" StatusMovedPermanently
    else
      -- Check if file exists
      match files r.Path with
      | none =>
        -- 404 redirect to base FQDN (without path)
        Redirect lib w r ("https://" ++ baseFQDN) StatusFound
      | some fileData =>
        -- Set content type based on file extension
        let contentType := getContentType lib r.Path
        let w := if contentType ≠ "" then w.SetHeader "Content-Type" contentType else w
        let w := w.SetHeader "Cache-Control" "public, must-revalidate, max-age=600"
        -- Handle ETag caching manually for embedded files
        let etag := (etags r.Path).getD ""
        let w := w.SetHeader "ETag" etag
        -- Check If-None-Match header
        if r.Header.Get "If-None-Match" = etag then
          let w := w.WriteHeader StatusNotModified
          -- Include ETag in 304 response as per HTTP spec
          w.SetHeader "ETag" etag
        else
          -- Use http.ServeContent for range request support
          ServeContent w r (lib.filepathBase r.Path) fileData.modTime fileData.content

/-! ## The embedded trees and the loaders -/

/-- An entry of an embedded file system (`embed.FS`) as the loaders see it: a
file with the outcome of `ReadFile` on it, or a directory with the outcome of
`ReadDir` on it. -/
inductive Entry where
  | file (name : String) (read : Except Error Bytes)
  | dir (name : String) (list : Except Error (List Entry))

/-- The method `entry.Name()`. -/
def Entry.Name : Entry → String
  | .file name _ => name
  | .dir name _ => name

/-- The method `entry.IsDir()`. -/
def Entry.IsDir : Entry → Bool
  | .file _ _ => false
  | .dir _ _ => true

/-- The assignment `m[key] = value` on a Go map. -/
def mapSet {V : Type} (m : String → Option V) (key : String) (value : V) : String → Option V :=
  fun k => if k = key then some value else m k

/-- The map returned by `make(map[string]V)`. -/
def emptyMap {V : Type} : String → Option V := fun _ => none

/-- The call `fmt.Sprintf("\"%x\"", hash)` on a byte array: the bytes in
lowercase hexadecimal between two double quotes. -/
def sprintfQuotedHex (hash : Digest) : String :=
  ⟨'"' :: (hash.val.flatMap hexByte ++ ['"'])⟩

/-- The validation token the loaders compute for a content (lines 55-56 and
96-97): `hash := md5.Sum(content)` rendered by `fmt.Sprintf("\"%x\"", hash)`. -/
def etagOf (lib : Lib) (content : Bytes) : String :=
  sprintfQuotedHex (lib.md5Sum content)

/-- What a loader leaves behind: its return value (`none` is the nil error),
the two maps it updated in place, the lines it logged, and the number of calls
of `time.Now()` made so far. -/
structure LoadResult where
  err : Option Error
  files : FileMap
  etags : EtagMap
  log : List String
  tick : Nat

mutual
/-- The function `loadJSONFiles` of `main.go`; `listing` is the outcome of
`jsonFiles.ReadDir(dir)`, `clock n` is the value of the call number `n` of
`time.Now()` and `tick` the number of calls made so far. -/
def loadJSONFiles (lib : Lib) (clock : Nat → Time) (listing : Except Error (List Entry))
    (dir pfx : String) (files : FileMap) (etags : EtagMap) (tick : Nat) : LoadResult :=
  match listing with
  | .error err =>
    { err := some err, files := files, etags := etags, log := [], tick := tick }
  | .ok entries => loadJSONEntries lib clock entries dir pfx files etags tick
/-- The `for _, entry := range entries` loop of `loadJSONFiles`. -/
def loadJSONEntries (lib : Lib) (clock : Nat → Time) (entries : List Entry)
    (dir pfx : String) (files : FileMap) (etags : EtagMap) (tick : Nat) : LoadResult :=
  match entries with
  | [] => { err := none, files := files, etags := etags, log := [], tick := tick }
  | entry :: rest =>
    let step := loadJSONEntry lib clock entry dir pfx files etags tick
    match step.err with
    | some _ => step
    | none =>
      let more := loadJSONEntries lib clock rest dir pfx step.files step.etags step.tick
      { more with log := step.log ++ more.log }
/-- The body of the loop of `loadJSONFiles` for one entry; an error in `err`
is the `return err` that leaves the loop. -/
def loadJSONEntry (lib : Lib) (clock : Nat → Time) (entry : Entry)
    (dir pfx : String) (files : FileMap) (etags : EtagMap) (tick : Nat) : LoadResult :=
  match entry with
  | .dir name list =>
    -- Recursively process subdirectories
    let fullPath := dir ++ "/" ++ name
    let newPrefix := pfx ++ "/" ++ name
    loadJSONFiles lib clock list fullPath newPrefix files etags tick
  | .file name read =>
    let fullPath := dir ++ "/" ++ name
    if hasSuffix name ".json" then
      -- Load JSON file
      match read with
      | .error err =>
        { err := none, files := files, etags := etags,
          log := ["Failed to read embedded file " ++ fullPath ++ ": " ++ err],
          tick := tick }
      | .ok content =>
        -- Create URL path (remove "json" prefix and add leading slash)
        let urlPath := pfx ++ "/" ++ name
        -- modTime: time.Now()
        let files := mapSet files urlPath { content := content, modTime := clock tick }
        -- Calculate ETag
        let etags := mapSet etags urlPath (etagOf lib content)
        { err := none, files := files, etags := etags, log := [], tick := tick + 1 }
    else
      { err := none, files := files, etags := etags, log := [], tick := tick }
end

mutual
/-- The function `loadImageFiles` of `main.go`; `listing` is the outcome of
`imageFiles.ReadDir(dir)`, `clock n` is the value of the call number `n` of
`time.Now()` and `tick` the number of calls made so far. -/
def loadImageFiles (lib : Lib) (clock : Nat → Time) (listing : Except Error (List Entry))
    (dir pfx : String) (files : FileMap) (etags : EtagMap) (tick : Nat) : LoadResult :=
  match listing with
  | .error err =>
    { err := some err, files := files, etags := etags, log := [], tick := tick }
  | .ok entries => loadImageEntries lib clock entries dir pfx files etags tick
/-- The `for _, entry := range entries` loop of `loadImageFiles`. -/
def loadImageEntries (lib : Lib) (clock : Nat → Time) (entries : List Entry)
    (dir pfx : String) (files : FileMap) (etags : EtagMap) (tick : Nat) : LoadResult :=
  match entries with
  | [] => { err := none, files := files, etags := etags, log := [], tick := tick }
  | entry :: rest =>
    let step := loadImageEntry lib clock entry dir pfx files etags tick
    match step.err with
    | some _ => step
    | none =>
      let more := loadImageEntries lib clock rest dir pfx step.files step.etags step.tick
      { more with log := step.log ++ more.log }
/-- The body of the loop of `loadImageFiles` for one entry; an error in `err`
is the `return err` that leaves the loop. -/
def loadImageEntry (lib : Lib) (clock : Nat → Time) (entry : Entry)
    (dir pfx : String) (files : FileMap) (etags : EtagMap) (tick : Nat) : LoadResult :=
  match entry with
  | .dir name list =>
    -- Recursively process subdirectories
    let fullPath := dir ++ "/" ++ name
    let newPrefix := pfx ++ "/" ++ name
    loadImageFiles lib clock list fullPath newPrefix files etags tick
  | .file name read =>
    let fullPath := dir ++ "/" ++ name
    if isImageFile lib name then
      -- Load image file
      match read with
      | .error err =>
        { err := none, files := files, etags := etags,
          log := ["Failed to read embedded file " ++ fullPath ++ ": " ++ err],
          tick := tick }
      | .ok content =>
        -- Create URL path (remove "images" prefix and add leading slash)
        let urlPath := pfx ++ "/" ++ name
        -- modTime: time.Now()
        let files := mapSet files urlPath { content := content, modTime := clock tick }
        -- Calculate ETag
        let etags := mapSet etags urlPath (etagOf lib content)
        { err := none, files := files, etags := etags, log := [], tick := tick + 1 }
    else
      { err := none, files := files, etags := etags, log := [], tick := tick }
end

/-! ## The traversal both loaders perform -/

/-- A file entry met while walking a tree: the names of the directories from
the tree root down to it, its name, and the outcome of reading it. -/
structure Visit where
  dirs : List String
  name : String
  read : Except Error Bytes

/-- The same visit seen from the parent of directory `d`. -/
def Visit.under (d : String) (v : Visit) : Visit :=
  { v with dirs := d :: v.dirs }

/-- The segments of a path, each preceded by a slash. -/
def joinSegs : List String → String
  | [] => ""
  | s :: rest => "/" ++ s ++ joinSegs rest

/-- The path of a visited file relative to the tree root, with a leading slash. -/
def Visit.relPath (v : Visit) : String :=
  joinSegs v.dirs ++ "/" ++ v.name

mutual
/-- The file entries a loader meets, in order, in a directory with the given
listing outcome, and the listing error that stops the walk, if any. -/
def walk : Except Error (List Entry) → List Visit × Option Error
  | .error err => ([], some err)
  | .ok entries => walkEntries entries
/-- The walk over the entries of one directory. -/
def walkEntries : List Entry → List Visit × Option Error
  | [] => ([], none)
  | entry :: rest =>
    match (walkEntry entry).2 with
    | some err => ((walkEntry entry).1, some err)
    | none => ((walkEntry entry).1 ++ (walkEntries rest).1, (walkEntries rest).2)
/-- The walk over one entry. -/
def walkEntry : Entry → List Visit × Option Error
  | .file name read => ([{ dirs := [], name := name, read := read }], none)
  | .dir name list => ((walk list).1.map (Visit.under name), (walk list).2)
end

/-- What a loader with eligibility test `elig` and prefix `pfx` does to the two
maps and the count of clock readings at a visited file: nothing when the name is
not eligible or the read failed, else the two assignments at the key `pfx`
followed by the relative path, with the next reading of the clock as `modTime`. -/
def storeVisit (lib : Lib) (clock : Nat → Time) (elig : String → Bool) (pfx : String)
    (st : (FileMap × EtagMap) × Nat) (v : Visit) : (FileMap × EtagMap) × Nat :=
  if elig v.name then
    match v.read with
    | .error _ => st
    | .ok content =>
      ((mapSet st.1.1 (pfx ++ v.relPath) { content := content, modTime := clock st.2 },
        mapSet st.1.2 (pfx ++ v.relPath) (etagOf lib content)), st.2 + 1)
  else st

/-- The eligibility test of `loadJSONFiles`. -/
def isJSONFile (filename : String) : Bool :=
  hasSuffix filename ".json"

/-- The two maps of a load result. -/
def LoadResult.maps (r : LoadResult) : FileMap × EtagMap :=
  (r.files, r.etags)

/-- The two maps of a load result and its count of clock readings. -/
def LoadResult.state (r : LoadResult) : (FileMap × EtagMap) × Nat :=
  (r.maps, r.tick)

/-- The relation between the maps before and after a loader at every key: the
key is untouched, or it holds a file whose tag is the token of its content. -/
def Touched (lib : Lib) (st st1 : FileMap × EtagMap) : Prop :=
  ∀ k : String, (st1.1 k = st.1 k ∧ st1.2 k = st.2 k) ∨
    ∃ fd : fileData, st1.1 k = some fd ∧ st1.2 k = some (etagOf lib fd.content)

/-- Lines 148-162 of `main`: both loaders run on two empty maps, the image
loader only when the data loader returned no error (`log.Fatal` otherwise);
`clock n` is the value of the call number `n` of `time.Now()`. -/
def mainLoad (lib : Lib) (clock : Nat → Time) (jsonFiles imageFiles : Except Error (List Entry)) :
    LoadResult :=
  let files : FileMap := emptyMap
  let etags : EtagMap := emptyMap
  let r1 := loadJSONFiles lib clock jsonFiles "json" "" files etags 0
  match r1.err with
  | some _ => r1
  | none =>
    let r2 := loadImageFiles lib clock imageFiles "images" "" r1.files r1.etags r1.tick
    { r2 with log := r1.log ++ r2.log }

/-- A clock for evaluating the loaders: reading number `n` is `n + 3`. -/
def sampleClock : Nat → Time :=
  fun n => n + 3

/-- A visited file in `vs` that a loader with test `elig` and prefix `pfx`
stores at key `k`: its name is eligible, it was read, and `k` is its key. -/
def Hits (elig : String → Bool) (pfx : String) (vs : List Visit) (k : String) : Prop :=
  ∃ v ∈ vs, elig v.name = true ∧ (∃ c, v.read = .ok c) ∧ pfx ++ v.relPath = k

/-! ## Source trees -/

/-- A name that is a single path element: it contains no slash. -/
def isPathElement (name : String) : Bool :=
  !name.data.contains '/'

mutual
/-- A well-formed source tree below a directory: the directory and every
directory below it can be listed, every file can be read, every name is a single
path element, and no two entries of one directory have the same name. -/
def wellFormed : Except Error (List Entry) → Bool
  | .error _ => false
  | .ok entries => wellFormedEntries entries
/-- Well-formedness of the entries of one directory. -/
def wellFormedEntries : List Entry → Bool
  | [] => true
  | entry :: rest =>
    wellFormedEntry entry && !(rest.map Entry.Name).contains entry.Name &&
      wellFormedEntries rest
/-- Well-formedness of one entry. -/
def wellFormedEntry : Entry → Bool
  | .file name read =>
    isPathElement name && (match read with | .ok _ => true | .error _ => false)
  | .dir name list => isPathElement name && wellFormed list
end

/-- The tree with root entries `es` has a readable file with bytes `c`, name
`name`, in the directory reached from the root through the directories `ds`. -/
inductive HasFile : List Entry → List String → String → Bytes → Prop where
  | inRoot {es : List Entry} {name : String} {c : Bytes} :
      Entry.file name (.ok c) ∈ es → HasFile es [] name c
  | inDir {es sub : List Entry} {d : String} {ds : List String} {name : String} {c : Bytes} :
      Entry.dir d (.ok sub) ∈ es → HasFile sub ds name c → HasFile es (d :: ds) name c

/-- The entries of a well-formed data tree for evaluating the loaders. -/
def sampleJSONEntries : List Entry :=
  [.file "versions.json" (.ok [123, 125]),
   .file "README.md" (.ok [35]),
   .dir "coolify" (.ok [.file "nightly.json" (.ok [91, 93])])]

/-- The entries of a well-formed image tree for evaluating the loaders. -/
def sampleImageEntries : List Entry :=
  [.file "logo.PNG" (.ok [137, 80]),
   .dir "icons" (.ok [.file "a.svg" (.ok [60]), .file "notes.txt" (.ok [1])])]

/-- A data tree for evaluating the loaders: two JSON files, a file that is not
JSON, a nested directory and an unreadable JSON file. -/
def sampleJSONTree : Except Error (List Entry) :=
  .ok [.file "versions.json" (.ok [123, 125]),
       .file "README.md" (.ok [35]),
       .dir "coolify" (.ok [.file "nightly.json" (.ok [91, 93]),
                            .file "broken.json" (.error "i/o error")])]

/-- An image tree for evaluating the loaders. -/
def sampleImageTree : Except Error (List Entry) :=
  .ok [.file "logo.PNG" (.ok [137, 80]),
       .dir "icons" (.ok [.file "a.svg" (.ok [60]), .file "notes.txt" (.ok [1])])]

/-- The response to a request: `handleRequest` run on a new response writer. -/
def respond (lib : Lib) (r : Request) (baseFQDN : String) (files : FileMap) (etags : EtagMap) :
    ResponseWriter :=
  handleRequest lib ResponseWriter.new r baseFQDN files etags

/-- The request `r` repeated with the header `If-None-Match` set to `value`. -/
def Request.withIfNoneMatch (r : Request) (value : String) : Request :=
  { r with Header := r.Header.Set "If-None-Match" value }

/-- A `Lib` on which the definitions can be evaluated: a constant digest, no
case folding outside ASCII, the identity for `filepath.Base`, no HTML note. -/
def Lib.sample : Lib :=
  { md5Sum := fun _ => ⟨List.replicate 16 0, rfl⟩
    lowerNonASCII := fun c => c
    filepathBase := fun s => s
    redirectNote := fun _ _ => [] }

/-- A one-asset store for evaluating the handler: the file map. -/
def sampleFiles : FileMap :=
  fun k => if k = "/versions.json" then some { content := [123, 125], modTime := 7 } else none

/-- A one-asset store for evaluating the handler: the tag map. -/
def sampleEtags : EtagMap :=
  fun k => if k = "/versions.json" then some "\"99914b932bd37a50b983c5e7c90ae93b\"" else none

/-! ## Failing listings and unreadable files -/

mutual
/-- Some directory of the tree cannot be listed: the directory with this
listing outcome itself, or a directory below it. -/
def listingFails : Except Error (List Entry) → Bool
  | .error _ => true
  | .ok entries => entriesListingFails entries
/-- Some directory among or below these entries cannot be listed. -/
def entriesListingFails : List Entry → Bool
  | [] => false
  | entry :: rest => entryListingFails entry || entriesListingFails rest
/-- The entry is a directory that cannot be listed or has one below it. -/
def entryListingFails : Entry → Bool
  | .file _ _ => false
  | .dir _ list => listingFails list
end

mutual
/-- The tree without the files that cannot be read. -/
def dropUnreadable : Except Error (List Entry) → Except Error (List Entry)
  | .error err => .error err
  | .ok entries => .ok (dropUnreadableEntries entries)
/-- The entries of a directory without the files that cannot be read. -/
def dropUnreadableEntries : List Entry → List Entry
  | [] => []
  | entry :: rest => dropUnreadableEntry entry ++ dropUnreadableEntries rest
/-- One entry without the files that cannot be read: nothing for such a file. -/
def dropUnreadableEntry : Entry → List Entry
  | .file name (.ok content) => [.file name (.ok content)]
  | .file _ (.error _) => []
  | .dir name list => [.dir name (dropUnreadable list)]
end

/-- The visited file was read. -/
def Visit.wasRead (v : Visit) : Bool :=
  match v.read with
  | .ok _ => true
  | .error _ => false

/-- The entries of a data tree with an unreadable file, for evaluating the loaders. -/
def sampleUnreadableEntries : List Entry :=
  [.file "broken.json" (.error "i/o error"),
   .file "versions.json" (.ok [123, 125]),
   .dir "coolify" (.ok [.file "gone.json" (.error "i/o error"),
                        .file "nightly.json" (.ok [91, 93])])]

/-- The extension to MIME type table of the specification: each extension
with the content type of a path whose lowercase form ends in it. -/
def extensionMIMETable : List (String × String) :=
  [(".json", "application/json"), (".png", "image/png"), (".jpg", "image/jpeg"),
   (".jpeg", "image/jpeg"), (".gif", "image/gif"), (".webp", "image/webp"),
   (".svg", "image/svg+xml"), (".bmp", "image/bmp"), (".ico", "image/x-icon")]

/-! ## Startup configuration and the health probe -/

/-- The function `os.Getenv` on a variable with the given value (`none` when
the variable is unset). -/
def Getenv (value : Option String) : String :=
  value.getD ""

/-- Lines 142-146 of `main`: the base domain for redirects, from the value of
the environment variable `BASE_FQDN`. -/
def mainBaseFQDN (env : Option String) : String :=
  let baseFQDN := Getenv env
  if baseFQDN = "" then "coollabs.io" else baseFQDN

/-- The function `main` of `healthcheck.go`: its exit status, from the outcome
of `http.Get` on the health URL (an error, or the status code of the response). -/
def healthcheckMain (get : Except Error Nat) : Nat :=
  match get with
  | .error _ => 1
  | .ok statusCode => if statusCode ≠ StatusOK then 1 else 0

/-- The test `strings.HasPrefix`, for stating that a string begins with another. -/
def startsWith (s start : String) : Bool :=
  start.data.isPrefixOf s.data

/-- A store in which `files` has the key `/versions.json` and `etags` has no
key, for evaluating the handler. -/
def sampleNoEtags : EtagMap :=
  fun _ => none

/-! ## Theorems -/

@[simp] theorem Header.Set_apply (h : Header) (key value k : String) :
    (h.Set key value) k = if k = key then [value] else h k := rfl

@[simp] theorem Header.empty_apply (k : String) : Header.empty k = [] := rfl

theorem aliasRewrite_ne_install (p : String) (h : p ≠ "/coolify/install.sh") :
    aliasRewrite p ≠ "/coolify/install.sh" := by
  unfold aliasRewrite
  split
  · decide
  · split
    · decide
    · exact h

theorem Redirect_status (lib : Lib) (w : ResponseWriter) (r : Request) (url : String)
    (code : Nat) (hw : w.wroteHeader = false) :
    (Redirect lib w r url code).wroteHeader = true ∧
    (Redirect lib w r url code).status = code ∧
    (Redirect lib w r url code).served = w.served := by
  simp only [Redirect, ResponseWriter.SetHeader, ResponseWriter.WriteHeader,
    ResponseWriter.Write]
  split <;> split <;> simp [hw]

theorem Redirect_location (lib : Lib) (w : ResponseWriter) (r : Request) (url : String)
    (code : Nat) (hw : w.wroteHeader = false) :
    (Redirect lib w r url code).responseHeader.Get "Location" = hexEscapeNonASCII url := by
  simp only [Redirect, ResponseWriter.SetHeader, ResponseWriter.WriteHeader,
    ResponseWriter.Write, ResponseWriter.responseHeader, Header.Get]
  split <;> split <;> simp [hw]

theorem flatMap_escape_of_all : ∀ (l : List Char), l.all (fun c => c.val < 128) = true →
    l.flatMap (fun c =>
      if c.val < 128 then [c]
      else (String.utf8EncodeChar c).flatMap (fun b => '%' :: hexByte b)) = l
  | [], _ => rfl
  | c :: l, h => by
    simp only [List.all_cons, Bool.and_eq_true, decide_eq_true_eq] at h
    simp only [List.flatMap_cons, h.1, if_true, flatMap_escape_of_all l h.2,
      List.singleton_append]

theorem hexEscapeNonASCII_of_isASCII (s : String) (h : isASCII s = true) :
    hexEscapeNonASCII s = s :=
  String.ext (flatMap_escape_of_all s.data h)

theorem isASCII_https (d : String) (h : isASCII d = true) : isASCII ("https://" ++ d) = true := by
  simp only [isASCII, String.data_append, List.all_append, Bool.and_eq_true] at h ⊢
  exact ⟨by decide, h⟩

/-- C1 (as stated, refuted): with the base domain `münchen.de` a request for a
path that is not in the store is answered with `Location`
`https://m%c3%bcnchen.de`, which is not `https://` followed by the base domain. -/
theorem handleRequest_unmatched_location_escaped :
    ("GET" ≠ "OPTIONS" ∧ "/this-path-does-not-exist" ≠ "/" ∧
      "/this-path-does-not-exist" ≠ "/health" ∧
      "/this-path-does-not-exist" ≠ "/coolify/install.sh" ∧
      (emptyMap : FileMap) (aliasRewrite "/this-path-does-not-exist") = none) ∧
    (respond Lib.sample ⟨"GET", "/this-path-does-not-exist", Header.empty⟩ "münchen.de"
      emptyMap emptyMap).status = 302 ∧
    (respond Lib.sample ⟨"GET", "/this-path-does-not-exist", Header.empty⟩ "münchen.de"
      emptyMap emptyMap).responseHeader.Get "Location" = "https://m%c3%bcnchen.de" ∧
    (respond Lib.sample ⟨"GET", "/this-path-does-not-exist", Header.empty⟩ "münchen.de"
      emptyMap emptyMap).responseHeader.Get "Location" ≠ "https://" ++ "münchen.de" := by
  decide

/-- C1 (amended): a request that is not OPTIONS, whose path is none of `/`,
`/health`, `/coolify/install.sh` and whose alias-rewritten path is not a key of
`files`, is answered by the handler itself with status 302 and `Location` equal
to `"https://" ++ baseFQDN` with its bytes outside ASCII percent-escaped, which
is `"https://" ++ baseFQDN` itself when the base domain is ASCII. -/
theorem handleRequest_unmatched_redirects (lib : Lib) (r : Request) (d : String)
    (files : FileMap) (etags : EtagMap)
    (hm : r.Method ≠ "OPTIONS") (h1 : r.Path ≠ "/") (h2 : r.Path ≠ "/health")
    (h3 : r.Path ≠ "/coolify/install.sh") (hf : files (aliasRewrite r.Path) = none) :
    (respond lib r d files etags).wroteHeader = true ∧
    (respond lib r d files etags).status = 302 ∧
    (respond lib r d files etags).responseHeader.Get "Location" =
      hexEscapeNonASCII ("https://" ++ d) ∧
    (isASCII d = true →
      (respond lib r d files etags).responseHeader.Get "Location" = "https://" ++ d) ∧
    (respond lib r d files etags).served = none := by
  have h3a := aliasRewrite_ne_install r.Path h3
  have hresp : respond lib r d files etags =
      Redirect lib
        (((ResponseWriter.new.SetHeader "Access-Control-Allow-Origin" "*").SetHeader
          "Access-Control-Allow-Methods" "GET, HEAD, OPTIONS").SetHeader
          "Access-Control-Allow-Headers" "Origin, X-Requested-With, Content-Type, Accept")
        { r with Path := aliasRewrite r.Path } ("https://" ++ d) StatusFound := by
    simp [respond, handleRequest, hm, h1, h2, h3a, hf]
  rw [hresp]
  refine ⟨?_, ?_, ?_, ?_, ?_⟩
  · exact (Redirect_status lib _ _ _ _ rfl).1
  · exact (Redirect_status lib _ _ _ _ rfl).2.1
  · exact Redirect_location lib _ _ _ _ rfl
  · intro ha
    rw [Redirect_location lib _ _ _ _ rfl]
    exact hexEscapeNonASCII_of_isASCII _ (isASCII_https d ha)
  · exact (Redirect_status lib _ _ _ _ rfl).2.2

theorem handleRequest_unmatched_redirects_witness :
    ("GET" ≠ "OPTIONS" ∧ "/this-path-does-not-exist" ≠ "/" ∧
      "/this-path-does-not-exist" ≠ "/health" ∧
      "/this-path-does-not-exist" ≠ "/coolify/install.sh") ∧
    (respond Lib.sample ⟨"GET", "/this-path-does-not-exist", Header.empty⟩ "coollabs.io"
      (fun _ => none) (fun _ => none)).status = 302 ∧
    (respond Lib.sample ⟨"GET", "/this-path-does-not-exist", Header.empty⟩ "coollabs.io"
      (fun _ => none) (fun _ => none)).responseHeader.Get "Location" =
        "https://" ++ "coollabs.io" :=
  have h := handleRequest_unmatched_redirects Lib.sample
    ⟨"GET", "/this-path-does-not-exist", Header.empty⟩ "coollabs.io"
    (fun _ => none) (fun _ => none) (by decide) (by decide) (by decide) (by decide) rfl
  ⟨⟨by decide, by decide, by decide, by decide⟩, h.2.1, h.2.2.2.1 (by decide)⟩

/-- C2: a request that is not OPTIONS and resolves to an asset gets the header
`ETag` with the value `etags[path]` for the resolved path; the same request with
`If-None-Match` set to that value is answered with status 304, an empty body
and the same `ETag` header, and is not handed to `http.ServeContent`. -/
theorem handleRequest_etag_round_trip (lib : Lib) (r : Request) (d : String)
    (files : FileMap) (etags : EtagMap) (fd : fileData)
    (hm : r.Method ≠ "OPTIONS") (h1 : r.Path ≠ "/") (h2 : r.Path ≠ "/health")
    (h3 : r.Path ≠ "/coolify/install.sh") (hf : files (aliasRewrite r.Path) = some fd) :
    (respond lib r d files etags).responseHeader.Get "ETag" =
      (etags (aliasRewrite r.Path)).getD "" ∧
    (respond lib (r.withIfNoneMatch
        ((respond lib r d files etags).responseHeader.Get "ETag")) d files etags).wroteHeader
      = true ∧
    (respond lib (r.withIfNoneMatch
        ((respond lib r d files etags).responseHeader.Get "ETag")) d files etags).status
      = 304 ∧
    (respond lib (r.withIfNoneMatch
        ((respond lib r d files etags).responseHeader.Get "ETag")) d files etags).body
      = [] ∧
    (respond lib (r.withIfNoneMatch
        ((respond lib r d files etags).responseHeader.Get "ETag")) d files etags).served
      = none ∧
    (respond lib (r.withIfNoneMatch
        ((respond lib r d files etags).responseHeader.Get "ETag")) d files etags
      ).responseHeader.Get "ETag" = (respond lib r d files etags).responseHeader.Get "ETag" := by
  have h3a := aliasRewrite_ne_install r.Path h3
  have first : (respond lib r d files etags).responseHeader.Get "ETag" =
      (etags (aliasRewrite r.Path)).getD "" := by
    simp only [respond, handleRequest, hm, h1, h2, h3a, hf, if_false]
    split <;> split <;>
      simp [ResponseWriter.SetHeader, ResponseWriter.WriteHeader,
        ResponseWriter.responseHeader, Header.Get, ResponseWriter.new, ServeContent,
        StatusNotModified]
  refine ⟨first, ?_⟩
  rw [first]
  simp [respond, handleRequest, hm, h1, h2, h3a, hf, Header.Get, Request.withIfNoneMatch,
    ResponseWriter.SetHeader, ResponseWriter.WriteHeader, ResponseWriter.responseHeader,
    ResponseWriter.new, StatusNotModified]
  split <;> simp

theorem handleRequest_etag_round_trip_witness :
    ("GET" ≠ "OPTIONS" ∧ "/coolify/versions.json" ≠ "/" ∧
      "/coolify/versions.json" ≠ "/health" ∧
      "/coolify/versions.json" ≠ "/coolify/install.sh" ∧
      sampleFiles (aliasRewrite "/coolify/versions.json") =
        some { content := [123, 125], modTime := 7 }) ∧
    (respond Lib.sample ⟨"GET", "/coolify/versions.json", Header.empty⟩ "coollabs.io"
      sampleFiles sampleEtags).responseHeader.Get "ETag" =
        (sampleEtags (aliasRewrite "/coolify/versions.json")).getD "" ∧
    (respond Lib.sample ((Request.mk "GET" "/coolify/versions.json" Header.empty).withIfNoneMatch
        ((respond Lib.sample ⟨"GET", "/coolify/versions.json", Header.empty⟩ "coollabs.io"
          sampleFiles sampleEtags).responseHeader.Get "ETag")) "coollabs.io"
      sampleFiles sampleEtags).status = 304 :=
  have h := handleRequest_etag_round_trip Lib.sample
    ⟨"GET", "/coolify/versions.json", Header.empty⟩ "coollabs.io" sampleFiles sampleEtags
    { content := [123, 125], modTime := 7 }
    (by decide) (by decide) (by decide) (by decide) (by decide)
  ⟨⟨by decide, by decide, by decide, by decide, by decide⟩, h.1, h.2.2.1⟩

/-- C3: alias transparency.  For every method and request headers, the handler
leaves the response writer in the same state (status, headers, body, pending
`http.ServeContent` call) for `/coolify/versions.json` as for `/versions.json`,
and for `/coolify/upgrade.sh` as for `/upgrade.sh`. -/
theorem handleRequest_alias_transparent (lib : Lib) (w : ResponseWriter) (method : String)
    (hdr : Header) (d : String) (files : FileMap) (etags : EtagMap) :
    handleRequest lib w ⟨method, "/coolify/versions.json", hdr⟩ d files etags =
      handleRequest lib w ⟨method, "/versions.json", hdr⟩ d files etags ∧
    handleRequest lib w ⟨method, "/coolify/upgrade.sh", hdr⟩ d files etags =
      handleRequest lib w ⟨method, "/upgrade.sh", hdr⟩ d files etags := by
  constructor <;> simp [handleRequest, aliasRewrite]

/-- C4: for every store, a request that is not OPTIONS with path
`/coolify/install.sh` is answered with status 301 and `Location`
`https://cdn.coolify.io/install.sh`, whatever `files` holds at that key; the
alias switch leaves that path unchanged and maps no other path to it. -/
theorem handleRequest_install_redirect (lib : Lib) (method : String) (hdr : Header)
    (d : String) (files : FileMap) (etags : EtagMap) (hm : method ≠ "OPTIONS") :
    (respond lib ⟨method, "/coolify/install.sh", hdr⟩ d files etags).wroteHeader = true ∧
    (respond lib ⟨method, "/coolify/install.sh", hdr⟩ d files etags).status = 301 ∧
    (respond lib ⟨method, "/coolify/install.sh", hdr⟩ d files etags).responseHeader.Get
      "Location" = "https://cdn.coolify.io/install.sh" ∧
    (respond lib ⟨method, "/coolify/install.sh", hdr⟩ d files etags).served = none ∧
    aliasRewrite "/coolify/install.sh" = "/coolify/install.sh" ∧
    ∀ p : String, aliasRewrite p = "/coolify/install.sh" → p = "/coolify/install.sh" := by
  have hresp : respond lib ⟨method, "/coolify/install.sh", hdr⟩ d files etags =
      Redirect lib
        (((ResponseWriter.new.SetHeader "Access-Control-Allow-Origin" "*").SetHeader
          "Access-Control-Allow-Methods" "GET, HEAD, OPTIONS").SetHeader
          "Access-Control-Allow-Headers" "Origin, X-Requested-With, Content-Type, Accept")
        ⟨method, "/coolify/install.sh", hdr⟩ "https://cdn.coolify.io/install.sh"
        StatusMovedPermanently := by
    simp [respond, handleRequest, hm, aliasRewrite]
  rw [hresp]
  refine ⟨?_, ?_, ?_, ?_, ?_, ?_⟩
  · exact (Redirect_status lib _ _ _ _ rfl).1
  · exact (Redirect_status lib _ _ _ _ rfl).2.1
  · exact (Redirect_location lib _ _ _ _ rfl).trans (by decide)
  · exact (Redirect_status lib _ _ _ _ rfl).2.2
  · decide
  · intro p hp
    by_contra hne
    exact aliasRewrite_ne_install p hne hp

theorem handleRequest_install_redirect_witness :
    "GET" ≠ "OPTIONS" ∧
    (respond Lib.sample ⟨"GET", "/coolify/install.sh", Header.empty⟩ "coollabs.io"
      (fun _ => some { content := [1], modTime := 0 }) (fun _ => none)).status = 301 ∧
    (respond Lib.sample ⟨"GET", "/coolify/install.sh", Header.empty⟩ "coollabs.io"
      (fun _ => some { content := [1], modTime := 0 }) (fun _ => none)).responseHeader.Get
      "Location" = "https://cdn.coolify.io/install.sh" :=
  have h := handleRequest_install_redirect Lib.sample "GET" Header.empty "coollabs.io"
    (fun _ => some { content := [1], modTime := 0 }) (fun _ => none) (by decide)
  ⟨by decide, h.2.1, h.2.2.1⟩

theorem Redirect_keeps_header (lib : Lib) (w : ResponseWriter) (r : Request) (url : String)
    (code : Nat) (key : String) (hw : w.wroteHeader = false) (h1 : key ≠ "Location")
    (h2 : key ≠ "Content-Type") :
    (Redirect lib w r url code).responseHeader key = w.header key := by
  simp only [Redirect, ResponseWriter.SetHeader, ResponseWriter.WriteHeader,
    ResponseWriter.Write, ResponseWriter.responseHeader]
  split <;> split <;> simp [hw, h1, h2]

/-- C5: for every request, store and base domain, whichever branch the handler
takes (204, health, 301, 302, 304 or the hand-over to `http.ServeContent`), the
response headers carry the three fixed CORS headers. -/
theorem handleRequest_cors_headers (lib : Lib) (r : Request) (d : String)
    (files : FileMap) (etags : EtagMap) :
    (respond lib r d files etags).responseHeader.Get "Access-Control-Allow-Origin" = "*" ∧
    (respond lib r d files etags).responseHeader.Get "Access-Control-Allow-Methods" =
      "GET, HEAD, OPTIONS" ∧
    (respond lib r d files etags).responseHeader.Get "Access-Control-Allow-Headers" =
      "Origin, X-Requested-With, Content-Type, Accept" := by
  have key : ∀ k : String, k ≠ "Location" → k ≠ "Content-Type" → k ≠ "Cache-Control" →
      k ≠ "ETag" →
      (respond lib r d files etags).responseHeader k =
        (((ResponseWriter.new.SetHeader "Access-Control-Allow-Origin" "*").SetHeader
          "Access-Control-Allow-Methods" "GET, HEAD, OPTIONS").SetHeader
          "Access-Control-Allow-Headers"
          "Origin, X-Requested-With, Content-Type, Accept").header k := by
    intro k hL hC hK hE
    unfold respond handleRequest
    simp only []
    split
    · simp [ResponseWriter.WriteHeader, ResponseWriter.SetHeader, ResponseWriter.new,
        ResponseWriter.responseHeader]
    · split
      · exact Redirect_keeps_header lib _ _ _ _ k rfl hL hC
      · split
        · simp [ResponseWriter.WriteHeader, ResponseWriter.SetHeader, ResponseWriter.new,
            ResponseWriter.responseHeader, ResponseWriter.Write, hC, StatusOK]
        · split
          · exact Redirect_keeps_header lib _ _ _ _ k rfl hL hC
          · split
            · exact Redirect_keeps_header lib _ _ _ _ k rfl hL hC
            · split <;> split <;>
                simp [ResponseWriter.WriteHeader, ResponseWriter.SetHeader,
                  ResponseWriter.new, ResponseWriter.responseHeader, ServeContent, hC, hK,
                  hE, StatusNotModified]
  refine ⟨?_, ?_, ?_⟩
  · simp [Header.Get, key "Access-Control-Allow-Origin" (by decide) (by decide) (by decide)
      (by decide), ResponseWriter.SetHeader]
  · simp [Header.Get, key "Access-Control-Allow-Methods" (by decide) (by decide) (by decide)
      (by decide), ResponseWriter.SetHeader]
  · simp [Header.Get, key "Access-Control-Allow-Headers" (by decide) (by decide) (by decide)
      (by decide), ResponseWriter.SetHeader]

/-- C6: for every path, store and request headers, a request with method
OPTIONS is answered with status 204, an empty body, no `Location` header and no
`ETag` header, and is not handed to `http.ServeContent`. -/
theorem handleRequest_options (lib : Lib) (path : String) (hdr : Header) (d : String)
    (files : FileMap) (etags : EtagMap) :
    (respond lib ⟨"OPTIONS", path, hdr⟩ d files etags).wroteHeader = true ∧
    (respond lib ⟨"OPTIONS", path, hdr⟩ d files etags).status = 204 ∧
    (respond lib ⟨"OPTIONS", path, hdr⟩ d files etags).body = [] ∧
    (respond lib ⟨"OPTIONS", path, hdr⟩ d files etags).responseHeader "Location" = [] ∧
    (respond lib ⟨"OPTIONS", path, hdr⟩ d files etags).responseHeader "ETag" = [] ∧
    (respond lib ⟨"OPTIONS", path, hdr⟩ d files etags).served = none := by
  simp [respond, handleRequest, ResponseWriter.WriteHeader, ResponseWriter.SetHeader,
    ResponseWriter.new, ResponseWriter.responseHeader, StatusNoContent]

theorem hexDigit_inj : ∀ i j : Fin 16, hexDigit i = hexDigit j → i = j := by
  decide

theorem hexByte_inj (a b : UInt8) (h : hexByte a = hexByte b) : a = b := by
  simp only [hexByte, List.cons.injEq, and_true] at h
  have ha := a.toNat_lt
  have hb := b.toNat_lt
  have h1 := hexDigit_inj ⟨a.toNat / 16, by omega⟩ ⟨b.toNat / 16, by omega⟩ h.1
  have h2 := hexDigit_inj ⟨a.toNat % 16, by omega⟩ ⟨b.toNat % 16, by omega⟩ h.2
  simp only [Fin.mk.injEq] at h1 h2
  apply UInt8.eq_of_val_eq
  apply Fin.ext
  show a.toNat = b.toNat
  omega

theorem hexBytes_inj : ∀ (x y : List UInt8), x.flatMap hexByte = y.flatMap hexByte → x = y
  | [], [] => fun _ => rfl
  | [], b :: y => fun h => by simp [List.flatMap_cons, hexByte] at h
  | a :: x, [] => fun h => by simp [List.flatMap_cons, hexByte] at h
  | a :: x, b :: y => fun h => by
    simp only [List.flatMap_cons] at h
    have hl : (hexByte a).length = (hexByte b).length := rfl
    have h2 := List.append_inj h hl
    rw [hexByte_inj a b h2.1, hexBytes_inj x y h2.2]

theorem sprintfQuotedHex_inj (x y : Digest) (h : sprintfQuotedHex x = sprintfQuotedHex y) :
    x = y := by
  have hd := congrArg String.data h
  simp only [sprintfQuotedHex, List.cons.injEq, true_and] at hd
  exact Subtype.ext (hexBytes_inj _ _ (List.append_cancel_right hd))

/-- C10 (as stated, refuted): no function into sixteen bytes, and so no
`md5.Sum`, makes the token of the loaders injective in the content; two
different contents share a token. -/
theorem etagOf_not_injective :
    ¬ ∃ lib : Lib, ∀ a b : Bytes, (etagOf lib a = etagOf lib b ↔ a = b) := by
  rintro ⟨lib, h⟩
  obtain ⟨a, b, hne, heq⟩ := Finite.exists_ne_map_eq_of_infinite lib.md5Sum
  exact hne ((h a b).1 (by simp [etagOf, heq]))

/-- C10 (amended): the token of the loaders is the same for two contents
exactly when `md5.Sum` gives them the same digest; in particular the same bytes
always give the same token. -/
theorem etagOf_eq_iff_digest_eq (lib : Lib) (a b : Bytes) :
    etagOf lib a = etagOf lib b ↔ lib.md5Sum a = lib.md5Sum b := by
  constructor
  · exact sprintfQuotedHex_inj _ _
  · intro h
    simp [etagOf, h]

/-! ### The loaders replay the walk -/

theorem storeVisit_under (lib : Lib) (clock : Nat → Time) (elig : String → Bool)
    (pfx d : String) (st : (FileMap × EtagMap) × Nat) (v : Visit) :
    storeVisit lib clock elig pfx st (v.under d) =
      storeVisit lib clock elig (pfx ++ "/" ++ d) st v := by
  simp [storeVisit, Visit.under, Visit.relPath, joinSegs, String.append_assoc]

theorem foldl_storeVisit_under (lib : Lib) (clock : Nat → Time) (elig : String → Bool)
    (pfx d : String) (vs : List Visit) (st : (FileMap × EtagMap) × Nat) :
    (vs.map (Visit.under d)).foldl (storeVisit lib clock elig pfx) st =
      vs.foldl (storeVisit lib clock elig (pfx ++ "/" ++ d)) st := by
  rw [List.foldl_map]
  congr 1
  funext st v
  exact storeVisit_under lib clock elig pfx d st v

mutual
theorem loadJSONFiles_eq_walk (lib : Lib) (clock : Nat → Time) :
    ∀ (l : Except Error (List Entry)) (dir pfx : String) (files : FileMap) (etags : EtagMap)
      (tick : Nat),
      (loadJSONFiles lib clock l dir pfx files etags tick).err = (walk l).2 ∧
      (loadJSONFiles lib clock l dir pfx files etags tick).state =
        (walk l).1.foldl (storeVisit lib clock isJSONFile pfx) ((files, etags), tick)
  | .error err, dir, pfx, files, etags, tick => by
    simp [loadJSONFiles, walk, LoadResult.maps, LoadResult.state]
  | .ok entries, dir, pfx, files, etags, tick => by
    simpa [loadJSONFiles, walk] using
      loadJSONEntries_eq_walk lib clock entries dir pfx files etags tick
theorem loadJSONEntries_eq_walk (lib : Lib) (clock : Nat → Time) :
    ∀ (es : List Entry) (dir pfx : String) (files : FileMap) (etags : EtagMap) (tick : Nat),
      (loadJSONEntries lib clock es dir pfx files etags tick).err = (walkEntries es).2 ∧
      (loadJSONEntries lib clock es dir pfx files etags tick).state =
        (walkEntries es).1.foldl (storeVisit lib clock isJSONFile pfx) ((files, etags), tick)
  | [], dir, pfx, files, etags, tick => by
    simp [loadJSONEntries, walkEntries, LoadResult.maps, LoadResult.state]
  | e :: rest, dir, pfx, files, etags, tick => by
    have h1 := loadJSONEntry_eq_walk lib clock e dir pfx files etags tick
    have h2 := loadJSONEntries_eq_walk lib clock rest dir pfx
      (loadJSONEntry lib clock e dir pfx files etags tick).files
      (loadJSONEntry lib clock e dir pfx files etags tick).etags
      (loadJSONEntry lib clock e dir pfx files etags tick).tick
    simp only [loadJSONEntries, walkEntries]
    rw [← h1.1]
    cases hstep : (loadJSONEntry lib clock e dir pfx files etags tick).err with
    | some err => simpa [hstep] using h1.2
    | none =>
      simp only [List.foldl_append, ← h1.2]
      exact ⟨h2.1, h2.2⟩
theorem loadJSONEntry_eq_walk (lib : Lib) (clock : Nat → Time) :
    ∀ (e : Entry) (dir pfx : String) (files : FileMap) (etags : EtagMap) (tick : Nat),
      (loadJSONEntry lib clock e dir pfx files etags tick).err = (walkEntry e).2 ∧
      (loadJSONEntry lib clock e dir pfx files etags tick).state =
        (walkEntry e).1.foldl (storeVisit lib clock isJSONFile pfx) ((files, etags), tick)
  | .file name read, dir, pfx, files, etags, tick => by
    cases read <;> by_cases hj : hasSuffix name ".json" = true <;>
      simp [loadJSONEntry, walkEntry, LoadResult.maps, LoadResult.state, storeVisit, isJSONFile, hj,
        Visit.relPath, joinSegs, String.append_assoc]
  | .dir name list, dir, pfx, files, etags, tick => by
    have h := loadJSONFiles_eq_walk lib clock list (dir ++ "/" ++ name) (pfx ++ "/" ++ name)
      files etags tick
    simp only [loadJSONEntry, walkEntry, foldl_storeVisit_under]
    exact h
end

mutual
theorem loadImageFiles_eq_walk (lib : Lib) (clock : Nat → Time) :
    ∀ (l : Except Error (List Entry)) (dir pfx : String) (files : FileMap) (etags : EtagMap)
      (tick : Nat),
      (loadImageFiles lib clock l dir pfx files etags tick).err = (walk l).2 ∧
      (loadImageFiles lib clock l dir pfx files etags tick).state =
        (walk l).1.foldl (storeVisit lib clock (isImageFile lib) pfx) ((files, etags), tick)
  | .error err, dir, pfx, files, etags, tick => by
    simp [loadImageFiles, walk, LoadResult.maps, LoadResult.state]
  | .ok entries, dir, pfx, files, etags, tick => by
    simpa [loadImageFiles, walk] using
      loadImageEntries_eq_walk lib clock entries dir pfx files etags tick
theorem loadImageEntries_eq_walk (lib : Lib) (clock : Nat → Time) :
    ∀ (es : List Entry) (dir pfx : String) (files : FileMap) (etags : EtagMap) (tick : Nat),
      (loadImageEntries lib clock es dir pfx files etags tick).err = (walkEntries es).2 ∧
      (loadImageEntries lib clock es dir pfx files etags tick).state =
        (walkEntries es).1.foldl (storeVisit lib clock (isImageFile lib) pfx) ((files, etags), tick)
  | [], dir, pfx, files, etags, tick => by
    simp [loadImageEntries, walkEntries, LoadResult.maps, LoadResult.state]
  | e :: rest, dir, pfx, files, etags, tick => by
    have h1 := loadImageEntry_eq_walk lib clock e dir pfx files etags tick
    have h2 := loadImageEntries_eq_walk lib clock rest dir pfx
      (loadImageEntry lib clock e dir pfx files etags tick).files
      (loadImageEntry lib clock e dir pfx files etags tick).etags
      (loadImageEntry lib clock e dir pfx files etags tick).tick
    simp only [loadImageEntries, walkEntries]
    rw [← h1.1]
    cases hstep : (loadImageEntry lib clock e dir pfx files etags tick).err with
    | some err => simpa [hstep] using h1.2
    | none =>
      simp only [List.foldl_append, ← h1.2]
      exact ⟨h2.1, h2.2⟩
theorem loadImageEntry_eq_walk (lib : Lib) (clock : Nat → Time) :
    ∀ (e : Entry) (dir pfx : String) (files : FileMap) (etags : EtagMap) (tick : Nat),
      (loadImageEntry lib clock e dir pfx files etags tick).err = (walkEntry e).2 ∧
      (loadImageEntry lib clock e dir pfx files etags tick).state =
        (walkEntry e).1.foldl (storeVisit lib clock (isImageFile lib) pfx) ((files, etags), tick)
  | .file name read, dir, pfx, files, etags, tick => by
    cases read <;> by_cases hj : isImageFile lib name = true <;>
      simp [loadImageEntry, walkEntry, LoadResult.maps, LoadResult.state, storeVisit, hj,
        Visit.relPath, joinSegs, String.append_assoc]
  | .dir name list, dir, pfx, files, etags, tick => by
    have h := loadImageFiles_eq_walk lib clock list (dir ++ "/" ++ name) (pfx ++ "/" ++ name)
      files etags tick
    simp only [loadImageEntry, walkEntry, foldl_storeVisit_under]
    exact h
end

theorem LoadResult.state_maps (r : LoadResult) : r.state.1 = r.maps := rfl

theorem LoadResult.state_files (r : LoadResult) : r.state.1.1 = r.files := rfl

theorem LoadResult.state_etags (r : LoadResult) : r.state.1.2 = r.etags := rfl

theorem LoadResult.state_tick (r : LoadResult) : r.state.2 = r.tick := rfl

/-! ### Consistency of the two maps -/

theorem Touched.refl (lib : Lib) (st : FileMap × EtagMap) : Touched lib st st :=
  fun _ => Or.inl ⟨rfl, rfl⟩

theorem Touched.trans {lib : Lib} {a b c : FileMap × EtagMap} (h1 : Touched lib a b)
    (h2 : Touched lib b c) : Touched lib a c := by
  intro k
  rcases h2 k with ⟨hf, ht⟩ | h
  · rcases h1 k with ⟨hf1, ht1⟩ | ⟨fd, hfd, htd⟩
    · exact Or.inl ⟨hf.trans hf1, ht.trans ht1⟩
    · exact Or.inr ⟨fd, hf.trans hfd, ht.trans htd⟩
  · exact Or.inr h

theorem Touched.keys {lib : Lib} {a b : FileMap × EtagMap} (h : Touched lib a b)
    (ha : ∀ k, (a.1 k).isSome = (a.2 k).isSome) (k : String) :
    (b.1 k).isSome = (b.2 k).isSome := by
  rcases h k with ⟨hf, ht⟩ | ⟨fd, hfd, htd⟩
  · rw [hf, ht]; exact ha k
  · rw [hfd, htd]; rfl

theorem storeVisit_touched (lib : Lib) (clock : Nat → Time) (elig : String → Bool)
    (pfx : String) (st : (FileMap × EtagMap) × Nat) (v : Visit) :
    Touched lib st.1 (storeVisit lib clock elig pfx st v).1 := by
  unfold storeVisit
  split
  · split
    · exact Touched.refl lib st.1
    · rename_i content _
      intro k
      by_cases hk : k = pfx ++ v.relPath
      · exact Or.inr ⟨{ content := content, modTime := clock st.2 }, by simp [mapSet, hk],
          by simp [mapSet, hk]⟩
      · exact Or.inl ⟨by simp [mapSet, hk], by simp [mapSet, hk]⟩
  · exact Touched.refl lib st.1

theorem foldl_storeVisit_touched (lib : Lib) (clock : Nat → Time) (elig : String → Bool)
    (pfx : String) : ∀ (vs : List Visit) (st : (FileMap × EtagMap) × Nat),
    Touched lib st.1 (vs.foldl (storeVisit lib clock elig pfx) st).1
  | [], st => Touched.refl lib st.1
  | v :: vs, st =>
    (storeVisit_touched lib clock elig pfx st v).trans
      (foldl_storeVisit_touched lib clock elig pfx vs _)

theorem loadJSONFiles_touched (lib : Lib) (clock : Nat → Time)
    (l : Except Error (List Entry)) (dir pfx : String) (files : FileMap) (etags : EtagMap)
    (tick : Nat) :
    Touched lib (files, etags) (loadJSONFiles lib clock l dir pfx files etags tick).maps := by
  rw [← LoadResult.state_maps, (loadJSONFiles_eq_walk lib clock l dir pfx files etags tick).2]
  exact foldl_storeVisit_touched lib clock _ pfx _ ((files, etags), tick)

theorem loadImageFiles_touched (lib : Lib) (clock : Nat → Time)
    (l : Except Error (List Entry)) (dir pfx : String) (files : FileMap) (etags : EtagMap)
    (tick : Nat) :
    Touched lib (files, etags) (loadImageFiles lib clock l dir pfx files etags tick).maps := by
  rw [← LoadResult.state_maps, (loadImageFiles_eq_walk lib clock l dir pfx files etags tick).2]
  exact foldl_storeVisit_touched lib clock _ pfx _ ((files, etags), tick)

theorem mainLoad_touched (lib : Lib) (clock : Nat → Time)
    (jt it : Except Error (List Entry)) :
    Touched lib (emptyMap, emptyMap) (mainLoad lib clock jt it).maps := by
  have h1 := loadJSONFiles_touched lib clock jt "json" "" emptyMap emptyMap 0
  unfold mainLoad
  simp only []
  split
  · exact h1
  · exact h1.trans (loadImageFiles_touched lib clock it "images" "" _ _ _)

/-- C8: if `files` and `etags` have the same keys before a call of
`loadJSONFiles` or `loadImageFiles`, they have the same keys after it, whatever
the call returns, and every key is either left as it was in both maps or holds a
file together with the tag `etagOf` of that file content (a double quote, the
lowercase hexadecimal MD5 digest, a double quote); and the two maps `main`
builds from empty maps have the same keys. -/
theorem loaders_keep_files_and_etags_consistent (lib : Lib) (clock : Nat → Time)
    (tick : Nat) (l jt it : Except Error (List Entry)) (dir pfx : String) (files : FileMap)
    (etags : EtagMap) (h : ∀ k, (files k).isSome = (etags k).isSome) :
    (∀ k, ((loadJSONFiles lib clock l dir pfx files etags tick).files k).isSome =
        ((loadJSONFiles lib clock l dir pfx files etags tick).etags k).isSome) ∧
    (∀ k, ((loadImageFiles lib clock l dir pfx files etags tick).files k).isSome =
        ((loadImageFiles lib clock l dir pfx files etags tick).etags k).isSome) ∧
    (∀ k, ((loadJSONFiles lib clock l dir pfx files etags tick).files k = files k ∧
          (loadJSONFiles lib clock l dir pfx files etags tick).etags k = etags k) ∨
        ∃ fd, (loadJSONFiles lib clock l dir pfx files etags tick).files k = some fd ∧
          (loadJSONFiles lib clock l dir pfx files etags tick).etags k =
            some (sprintfQuotedHex (lib.md5Sum fd.content))) ∧
    (∀ k, ((loadImageFiles lib clock l dir pfx files etags tick).files k = files k ∧
          (loadImageFiles lib clock l dir pfx files etags tick).etags k = etags k) ∨
        ∃ fd, (loadImageFiles lib clock l dir pfx files etags tick).files k = some fd ∧
          (loadImageFiles lib clock l dir pfx files etags tick).etags k =
            some (sprintfQuotedHex (lib.md5Sum fd.content))) ∧
    (∀ k, ((mainLoad lib clock jt it).files k).isSome =
        ((mainLoad lib clock jt it).etags k).isSome) :=
  ⟨(loadJSONFiles_touched lib clock l dir pfx files etags tick).keys h,
   (loadImageFiles_touched lib clock l dir pfx files etags tick).keys h,
   loadJSONFiles_touched lib clock l dir pfx files etags tick,
   loadImageFiles_touched lib clock l dir pfx files etags tick,
   (mainLoad_touched lib clock jt it).keys (fun _ => rfl)⟩

/-! ### Keys written by the two loaders -/

theorem hasSuffix_iff (s suffix : String) : hasSuffix s suffix = true ↔ suffix.data <:+ s.data := by
  simp [hasSuffix]

theorem hasSuffix_append_left (a s suffix : String) (h : hasSuffix s suffix = true) :
    hasSuffix (a ++ s) suffix = true := by
  rw [hasSuffix_iff] at h ⊢
  rw [String.data_append]
  exact h.trans (List.suffix_append _ _)

theorem toLower_data_append (lib : Lib) (a s : String) :
    (toLower lib (a ++ s)).data = (toLower lib a).data ++ (toLower lib s).data := by
  simp [toLower, String.data_append]

theorem isImageFile_append_left (lib : Lib) (a s : String) (h : isImageFile lib s = true) :
    isImageFile lib (a ++ s) = true := by
  simp only [isImageFile, List.any_eq_true] at h ⊢
  obtain ⟨ext, hext, hs⟩ := h
  refine ⟨ext, hext, ?_⟩
  rw [hasSuffix_iff] at hs ⊢
  rw [toLower_data_append]
  exact hs.trans (List.suffix_append _ _)

theorem toLower_json_suffix (lib : Lib) (name : String) (h : hasSuffix name ".json" = true) :
    hasSuffix (toLower lib name) ".json" = true := by
  rw [hasSuffix_iff] at h ⊢
  have hm := List.IsSuffix.map (unicodeToLower lib) h
  have hj : List.map (unicodeToLower lib) ".json".data = ".json".data := by rfl
  rw [hj] at hm
  exact hm

theorem not_suffix_of_json (l : List Char) (ext : String) (hj : ".json".data <:+ l)
    (hlen : ext.data.length ≤ 5) (hne : ext.data.isSuffixOf ".json".data = false) :
    ¬ ext.data <:+ l := by
  intro he
  have h := List.suffix_of_suffix_length_le he hj (by simpa using hlen)
  rw [← List.isSuffixOf_iff_suffix, hne] at h
  exact Bool.noConfusion h

theorem json_not_image (lib : Lib) (name : String) (h : hasSuffix name ".json" = true) :
    isImageFile lib name = false := by
  have hj := (hasSuffix_iff _ _).1 (toLower_json_suffix lib name h)
  have key : ∀ ext : String, ext.data.length ≤ 5 →
      ext.data.isSuffixOf ".json".data = false → hasSuffix (toLower lib name) ext = false := by
    intro ext hlen hne
    have := not_suffix_of_json _ ext hj hlen hne
    rw [← hasSuffix_iff] at this
    simpa using this
  simp only [isImageFile, List.any_cons, List.any_nil, Bool.or_false, Bool.or_eq_false_iff]
  refine ⟨key _ (by decide) (by decide), key _ (by decide) (by decide),
    key _ (by decide) (by decide), key _ (by decide) (by decide),
    key _ (by decide) (by decide), key _ (by decide) (by decide),
    key _ (by decide) (by decide), key _ (by decide) (by decide)⟩

theorem storeVisit_miss (lib : Lib) (clock : Nat → Time) (elig : String → Bool)
    (pfx : String) (st : (FileMap × EtagMap) × Nat) (v : Visit) (k : String)
    (h : ¬ (elig v.name = true ∧ (∃ c, v.read = .ok c) ∧ pfx ++ v.relPath = k)) :
    (storeVisit lib clock elig pfx st v).1.1 k = st.1.1 k ∧
    (storeVisit lib clock elig pfx st v).1.2 k = st.1.2 k := by
  unfold storeVisit
  split
  · split
    · exact ⟨rfl, rfl⟩
    · rename_i he _ c hc
      have hk : k ≠ pfx ++ v.relPath := fun hk => h ⟨he, ⟨c, hc⟩, hk.symm⟩
      simp [mapSet, hk]
  · exact ⟨rfl, rfl⟩

theorem storeVisit_hit (lib : Lib) (clock : Nat → Time) (elig : String → Bool)
    (pfx : String) (st : (FileMap × EtagMap) × Nat) (v : Visit) (c : Bytes)
    (he : elig v.name = true) (hc : v.read = .ok c) :
    (storeVisit lib clock elig pfx st v).1.1 (pfx ++ v.relPath) =
      some { content := c, modTime := clock st.2 } ∧
    (storeVisit lib clock elig pfx st v).1.2 (pfx ++ v.relPath) = some (etagOf lib c) := by
  simp [storeVisit, he, hc, mapSet]

theorem foldl_storeVisit_miss (lib : Lib) (clock : Nat → Time) (elig : String → Bool)
    (pfx : String) (k : String) : ∀ (vs : List Visit) (st : (FileMap × EtagMap) × Nat),
    ¬ Hits elig pfx vs k →
    (vs.foldl (storeVisit lib clock elig pfx) st).1.1 k = st.1.1 k ∧
    (vs.foldl (storeVisit lib clock elig pfx) st).1.2 k = st.1.2 k
  | [], st, _ => ⟨rfl, rfl⟩
  | v :: vs, st, h => by
    have hv : ¬ (elig v.name = true ∧ (∃ c, v.read = .ok c) ∧ pfx ++ v.relPath = k) :=
      fun hv => h ⟨v, List.mem_cons_self _ _, hv⟩
    have hvs : ¬ Hits elig pfx vs k :=
      fun ⟨w, hw, hh⟩ => h ⟨w, List.mem_cons_of_mem _ hw, hh⟩
    have h1 := storeVisit_miss lib clock elig pfx st v k hv
    have h2 := foldl_storeVisit_miss lib clock elig pfx k vs
      (storeVisit lib clock elig pfx st v) hvs
    simp only [List.foldl_cons]
    exact ⟨h2.1.trans h1.1, h2.2.trans h1.2⟩

theorem foldl_storeVisit_hit (lib : Lib) (clock : Nat → Time) (elig : String → Bool)
    (pfx : String) (k : String) : ∀ (vs : List Visit) (st st1 : (FileMap × EtagMap) × Nat),
    Hits elig pfx vs k →
    ((vs.foldl (storeVisit lib clock elig pfx) st).1.1 k).map fileData.content =
      ((vs.foldl (storeVisit lib clock elig pfx) st1).1.1 k).map fileData.content ∧
    (vs.foldl (storeVisit lib clock elig pfx) st).1.2 k =
      (vs.foldl (storeVisit lib clock elig pfx) st1).1.2 k
  | [], _, _, h => by
    obtain ⟨v, hv, _⟩ := h
    cases hv
  | v :: vs, st, st1, h => by
    simp only [List.foldl_cons]
    by_cases hvs : Hits elig pfx vs k
    · exact foldl_storeVisit_hit lib clock elig pfx k vs _ _ hvs
    · have hv : elig v.name = true ∧ (∃ c, v.read = .ok c) ∧ pfx ++ v.relPath = k := by
        obtain ⟨w, hw, hh⟩ := h
        rcases List.mem_cons.1 hw with rfl | hw
        · exact hh
        · exact absurd ⟨w, hw, hh⟩ hvs
      obtain ⟨he, ⟨c, hc⟩, hk⟩ := hv
      have a := foldl_storeVisit_miss lib clock elig pfx k vs
        (storeVisit lib clock elig pfx st v) hvs
      have b := foldl_storeVisit_miss lib clock elig pfx k vs
        (storeVisit lib clock elig pfx st1 v) hvs
      have x := storeVisit_hit lib clock elig pfx st v c he hc
      have y := storeVisit_hit lib clock elig pfx st1 v c he hc
      rw [hk] at x y
      exact ⟨by rw [a.1, b.1, x.1, y.1]; rfl, by rw [a.2, b.2, x.2, y.2]⟩

theorem foldl_storeVisit_comm (lib : Lib) (clock : Nat → Time)
    (eligA eligB : String → Bool) (pfxA pfxB : String) (va vb : List Visit)
    (st : (FileMap × EtagMap) × Nat)
    (hdisj : ∀ k, ¬ (Hits eligA pfxA va k ∧ Hits eligB pfxB vb k)) (k : String) :
    ((vb.foldl (storeVisit lib clock eligB pfxB)
        (va.foldl (storeVisit lib clock eligA pfxA) st)).1.1 k).map fileData.content =
      ((va.foldl (storeVisit lib clock eligA pfxA)
        (vb.foldl (storeVisit lib clock eligB pfxB) st)).1.1 k).map fileData.content ∧
    (vb.foldl (storeVisit lib clock eligB pfxB)
        (va.foldl (storeVisit lib clock eligA pfxA) st)).1.2 k =
      (va.foldl (storeVisit lib clock eligA pfxA)
        (vb.foldl (storeVisit lib clock eligB pfxB) st)).1.2 k := by
  by_cases ha : Hits eligA pfxA va k
  · have hb : ¬ Hits eligB pfxB vb k := fun hb => hdisj k ⟨ha, hb⟩
    have m := foldl_storeVisit_miss lib clock eligB pfxB k vb
      (va.foldl (storeVisit lib clock eligA pfxA) st) hb
    have n := foldl_storeVisit_hit lib clock eligA pfxA k va st
      (vb.foldl (storeVisit lib clock eligB pfxB) st) ha
    exact ⟨by rw [m.1]; exact n.1, m.2.trans n.2⟩
  · have m := foldl_storeVisit_miss lib clock eligA pfxA k va
      (vb.foldl (storeVisit lib clock eligB pfxB) st) ha
    by_cases hb : Hits eligB pfxB vb k
    · have n := foldl_storeVisit_hit lib clock eligB pfxB k vb
        (va.foldl (storeVisit lib clock eligA pfxA) st) st hb
      exact ⟨by rw [m.1]; exact n.1, n.2.trans m.2.symm⟩
    · have n := foldl_storeVisit_miss lib clock eligB pfxB k vb
        (va.foldl (storeVisit lib clock eligA pfxA) st) hb
      have o := foldl_storeVisit_miss lib clock eligA pfxA k va st ha
      have q := foldl_storeVisit_miss lib clock eligB pfxB k vb st hb
      exact ⟨by rw [n.1, o.1, m.1, q.1], by rw [n.2, o.2, m.2, q.2]⟩

theorem Hits.json_suffix {pfx : String} {vs : List Visit} {k : String}
    (h : Hits isJSONFile pfx vs k) : hasSuffix k ".json" = true := by
  obtain ⟨v, _, he, _, hk⟩ := h
  rw [← hk, Visit.relPath, ← String.append_assoc]
  exact hasSuffix_append_left _ _ _ he

theorem Hits.image_suffix {lib : Lib} {pfx : String} {vs : List Visit} {k : String}
    (h : Hits (isImageFile lib) pfx vs k) : isImageFile lib k = true := by
  obtain ⟨v, _, he, _, hk⟩ := h
  rw [← hk, Visit.relPath, ← String.append_assoc]
  exact isImageFile_append_left lib _ _ he

theorem Hits.json_image_disjoint (lib : Lib) (pfxJ pfxI : String) (vj vi : List Visit)
    (k : String) : ¬ (Hits isJSONFile pfxJ vj k ∧ Hits (isImageFile lib) pfxI vi k) := by
  rintro ⟨hj, hi⟩
  have := json_not_image lib k hj.json_suffix
  rw [hi.image_suffix] at this
  exact Bool.noConfusion this

theorem loadJSONFiles_present (lib : Lib) (clock : Nat → Time)
    (l : Except Error (List Entry)) (dir pfx : String) (tick : Nat) (k : String)
    (h : (loadJSONFiles lib clock l dir pfx emptyMap emptyMap tick).files k ≠ none) :
    Hits isJSONFile pfx (walk l).1 k := by
  by_contra hn
  have e := (loadJSONFiles_eq_walk lib clock l dir pfx emptyMap emptyMap tick).2
  have m := (foldl_storeVisit_miss lib clock isJSONFile pfx k (walk l).1
    ((emptyMap, emptyMap), tick) hn).1
  rw [← e] at m
  exact h m

theorem loadImageFiles_present (lib : Lib) (clock : Nat → Time)
    (l : Except Error (List Entry)) (dir pfx : String) (tick : Nat) (k : String)
    (h : (loadImageFiles lib clock l dir pfx emptyMap emptyMap tick).files k ≠ none) :
    Hits (isImageFile lib) pfx (walk l).1 k := by
  by_contra hn
  have e := (loadImageFiles_eq_walk lib clock l dir pfx emptyMap emptyMap tick).2
  have m := (foldl_storeVisit_miss lib clock (isImageFile lib) pfx k (walk l).1
    ((emptyMap, emptyMap), tick) hn).1
  rw [← e] at m
  exact h m

/-- C9 (as stated, refuted): on the sample trees, with a clock that advances at
every reading, `/versions.json` is stored with `modTime` 3 when `loadJSONFiles`
runs first and with `modTime` 5 when `loadImageFiles` runs first, so the two
orders do not leave the same maps. -/
theorem loaders_order_changes_store :
    (loadImageFiles Lib.sample sampleClock (.ok sampleImageEntries) "images" ""
      (loadJSONFiles Lib.sample sampleClock (.ok sampleJSONEntries) "json" ""
        emptyMap emptyMap 0).files
      (loadJSONFiles Lib.sample sampleClock (.ok sampleJSONEntries) "json" ""
        emptyMap emptyMap 0).etags
      (loadJSONFiles Lib.sample sampleClock (.ok sampleJSONEntries) "json" ""
        emptyMap emptyMap 0).tick).files "/versions.json" =
      some { content := [123, 125], modTime := 3 } ∧
    (loadJSONFiles Lib.sample sampleClock (.ok sampleJSONEntries) "json" ""
      (loadImageFiles Lib.sample sampleClock (.ok sampleImageEntries) "images" ""
        emptyMap emptyMap 0).files
      (loadImageFiles Lib.sample sampleClock (.ok sampleImageEntries) "images" ""
        emptyMap emptyMap 0).etags
      (loadImageFiles Lib.sample sampleClock (.ok sampleImageEntries) "images" ""
        emptyMap emptyMap 0).tick).files "/versions.json" =
      some { content := [123, 125], modTime := 5 } ∧
    (loadImageFiles Lib.sample sampleClock (.ok sampleImageEntries) "images" ""
      (loadJSONFiles Lib.sample sampleClock (.ok sampleJSONEntries) "json" ""
        emptyMap emptyMap 0).files
      (loadJSONFiles Lib.sample sampleClock (.ok sampleJSONEntries) "json" ""
        emptyMap emptyMap 0).etags
      (loadJSONFiles Lib.sample sampleClock (.ok sampleJSONEntries) "json" ""
        emptyMap emptyMap 0).tick).maps ≠
    (loadJSONFiles Lib.sample sampleClock (.ok sampleJSONEntries) "json" ""
      (loadImageFiles Lib.sample sampleClock (.ok sampleImageEntries) "images" ""
        emptyMap emptyMap 0).files
      (loadImageFiles Lib.sample sampleClock (.ok sampleImageEntries) "images" ""
        emptyMap emptyMap 0).etags
      (loadImageFiles Lib.sample sampleClock (.ok sampleImageEntries) "images" ""
        emptyMap emptyMap 0).tick).maps := by
  refine ⟨by decide, by decide, ?_⟩
  intro h
  have h1 := congrFun (congrArg Prod.fst h) "/versions.json"
  revert h1
  decide

/-- C9 (amended): no filename both ends in `.json` and satisfies `isImageFile`;
for every data tree and image tree no key is inserted (present after a run on
empty maps) by both loaders; and from any initial maps, running `loadJSONFiles`
then `loadImageFiles` leaves at every key the same file content and the same tag
as running them in the other order. -/
theorem loaders_insert_disjoint_keys (lib : Lib) (clock : Nat → Time) (tick tickJ tickI : Nat)
    (jt it : Except Error (List Entry)) (dirJ dirI pfxJ pfxI : String)
    (files : FileMap) (etags : EtagMap) :
    (∀ name : String, ¬ (hasSuffix name ".json" = true ∧ isImageFile lib name = true)) ∧
    (∀ k : String,
      ¬ ((loadJSONFiles lib clock jt dirJ pfxJ emptyMap emptyMap tickJ).files k ≠ none ∧
        (loadImageFiles lib clock it dirI pfxI emptyMap emptyMap tickI).files k ≠ none)) ∧
    (∀ k : String,
      ((loadImageFiles lib clock it dirI pfxI
          (loadJSONFiles lib clock jt dirJ pfxJ files etags tick).files
          (loadJSONFiles lib clock jt dirJ pfxJ files etags tick).etags
          (loadJSONFiles lib clock jt dirJ pfxJ files etags tick).tick).files k).map
          fileData.content =
        ((loadJSONFiles lib clock jt dirJ pfxJ
          (loadImageFiles lib clock it dirI pfxI files etags tick).files
          (loadImageFiles lib clock it dirI pfxI files etags tick).etags
          (loadImageFiles lib clock it dirI pfxI files etags tick).tick).files k).map
          fileData.content ∧
      (loadImageFiles lib clock it dirI pfxI
          (loadJSONFiles lib clock jt dirJ pfxJ files etags tick).files
          (loadJSONFiles lib clock jt dirJ pfxJ files etags tick).etags
          (loadJSONFiles lib clock jt dirJ pfxJ files etags tick).tick).etags k =
        (loadJSONFiles lib clock jt dirJ pfxJ
          (loadImageFiles lib clock it dirI pfxI files etags tick).files
          (loadImageFiles lib clock it dirI pfxI files etags tick).etags
          (loadImageFiles lib clock it dirI pfxI files etags tick).tick).etags k) := by
  refine ⟨?_, ?_, ?_⟩
  · rintro name ⟨hj, hi⟩
    rw [json_not_image lib name hj] at hi
    exact Bool.noConfusion hi
  · rintro k ⟨hj, hi⟩
    exact Hits.json_image_disjoint lib pfxJ pfxI _ _ k
      ⟨loadJSONFiles_present lib clock jt dirJ pfxJ tickJ k hj,
       loadImageFiles_present lib clock it dirI pfxI tickI k hi⟩
  · intro k
    have e1 := (loadJSONFiles_eq_walk lib clock jt dirJ pfxJ files etags tick).2
    have e2 := (loadImageFiles_eq_walk lib clock it dirI pfxI files etags tick).2
    have e3 := (loadImageFiles_eq_walk lib clock it dirI pfxI
      (loadJSONFiles lib clock jt dirJ pfxJ files etags tick).files
      (loadJSONFiles lib clock jt dirJ pfxJ files etags tick).etags
      (loadJSONFiles lib clock jt dirJ pfxJ files etags tick).tick).2
    have e4 := (loadJSONFiles_eq_walk lib clock jt dirJ pfxJ
      (loadImageFiles lib clock it dirI pfxI files etags tick).files
      (loadImageFiles lib clock it dirI pfxI files etags tick).etags
      (loadImageFiles lib clock it dirI pfxI files etags tick).tick).2
    have s1 : (((loadJSONFiles lib clock jt dirJ pfxJ files etags tick).files,
        (loadJSONFiles lib clock jt dirJ pfxJ files etags tick).etags),
        (loadJSONFiles lib clock jt dirJ pfxJ files etags tick).tick) =
        (loadJSONFiles lib clock jt dirJ pfxJ files etags tick).state := rfl
    have s2 : (((loadImageFiles lib clock it dirI pfxI files etags tick).files,
        (loadImageFiles lib clock it dirI pfxI files etags tick).etags),
        (loadImageFiles lib clock it dirI pfxI files etags tick).tick) =
        (loadImageFiles lib clock it dirI pfxI files etags tick).state := rfl
    rw [s1, e1] at e3
    rw [s2, e2] at e4
    have c := foldl_storeVisit_comm lib clock isJSONFile (isImageFile lib) pfxJ pfxI
      (walk jt).1 (walk it).1 ((files, etags), tick)
      (Hits.json_image_disjoint lib pfxJ pfxI _ _) k
    rw [← e3, ← e4] at c
    exact c

/-! ### Well-formed trees -/

theorem wellFormedEntries_cons (e : Entry) (rest : List Entry) :
    wellFormedEntries (e :: rest) = true ↔
      wellFormedEntry e = true ∧ e.Name ∉ rest.map Entry.Name ∧
        wellFormedEntries rest = true := by
  simp [wellFormedEntries, and_assoc]

theorem wellFormedEntries_mem : ∀ (es : List Entry), wellFormedEntries es = true →
    ∀ e ∈ es, wellFormedEntry e = true
  | [], _, e, he => by cases he
  | x :: rest, h, e, he => by
    rw [wellFormedEntries_cons] at h
    rcases List.mem_cons.1 he with rfl | hr
    · exact h.1
    · exact wellFormedEntries_mem rest h.2.2 e hr

theorem wellFormedEntries_unique : ∀ (es : List Entry), wellFormedEntries es = true →
    ∀ e ∈ es, ∀ e1 ∈ es, e.Name = e1.Name → e = e1
  | [], _, e, he, _, _, _ => by cases he
  | x :: rest, h, e, he, e1, he1, hn => by
    rw [wellFormedEntries_cons] at h
    rcases List.mem_cons.1 he with rfl | hr
    · rcases List.mem_cons.1 he1 with rfl | hr1
      · rfl
      · exact absurd (List.mem_map.2 ⟨e1, hr1, hn.symm⟩) h.2.1
    · rcases List.mem_cons.1 he1 with rfl | hr1
      · exact absurd (List.mem_map.2 ⟨e, hr, hn⟩) h.2.1
      · exact wellFormedEntries_unique rest h.2.2 e hr e1 hr1 hn

theorem wellFormedEntry_file {name : String} {read : Except Error Bytes}
    (h : wellFormedEntry (.file name read) = true) :
    isPathElement name = true ∧ ∃ c, read = .ok c := by
  cases read <;> simp_all [wellFormedEntry]

theorem wellFormedEntry_dir {name : String} {list : Except Error (List Entry)}
    (h : wellFormedEntry (.dir name list) = true) :
    isPathElement name = true ∧ ∃ sub, list = .ok sub ∧ wellFormedEntries sub = true := by
  cases list <;> simp_all [wellFormedEntry, wellFormed]

mutual
theorem walkEntries_no_error : ∀ (es : List Entry), wellFormedEntries es = true →
    (walkEntries es).2 = none
  | [], _ => by simp [walkEntries]
  | e :: rest, h => by
    rw [wellFormedEntries_cons] at h
    have h1 := walkEntry_no_error e h.1
    have h2 := walkEntries_no_error rest h.2.2
    simp [walkEntries, h1, h2]
theorem walkEntry_no_error : ∀ (e : Entry), wellFormedEntry e = true → (walkEntry e).2 = none
  | .file name read, _ => by simp [walkEntry]
  | .dir name (.error err), h => by simp [wellFormedEntry, wellFormed] at h
  | .dir name (.ok sub), h => by
    have hs : wellFormedEntries sub = true := by
      simp only [wellFormedEntry, wellFormed, Bool.and_eq_true] at h
      exact h.2
    simpa [walkEntry, walk] using walkEntries_no_error sub hs
end

theorem walkEntries_mem_of_entry : ∀ (es : List Entry), (walkEntries es).2 = none →
    ∀ e ∈ es, ∀ v ∈ (walkEntry e).1, v ∈ (walkEntries es).1
  | [], _, e, he, _, _ => by cases he
  | x :: rest, h, e, he, v, hv => by
    simp only [walkEntries] at h ⊢
    cases hx : (walkEntry x).2 with
    | some err => simp [hx] at h
    | none =>
      simp only [hx] at h ⊢
      rcases List.mem_cons.1 he with rfl | hr
      · exact List.mem_append_left _ hv
      · exact List.mem_append_right _ (walkEntries_mem_of_entry rest h e hr v hv)

theorem walkEntries_mem_entry : ∀ (es : List Entry) (v : Visit), v ∈ (walkEntries es).1 →
    ∃ e ∈ es, v ∈ (walkEntry e).1
  | [], v, hv => by simp [walkEntries] at hv
  | x :: rest, v, hv => by
    simp only [walkEntries] at hv
    cases hx : (walkEntry x).2 with
    | some err =>
      simp only [hx] at hv
      exact ⟨x, List.mem_cons_self _ _, hv⟩
    | none =>
      simp only [hx] at hv
      rcases List.mem_append.1 hv with h1 | h2
      · exact ⟨x, List.mem_cons_self _ _, h1⟩
      · obtain ⟨e, he, hve⟩ := walkEntries_mem_entry rest v h2
        exact ⟨e, List.mem_cons_of_mem _ he, hve⟩

theorem HasFile.mono {es es1 : List Entry} {ds : List String} {name : String} {c : Bytes}
    (h : HasFile es ds name c) (hsub : ∀ e ∈ es, e ∈ es1) : HasFile es1 ds name c := by
  cases h with
  | inRoot hm => exact HasFile.inRoot (hsub _ hm)
  | inDir hm hs => exact HasFile.inDir (hsub _ hm) hs

theorem HasFile.visited {es : List Entry} {ds : List String} {name : String} {c : Bytes}
    (h : HasFile es ds name c) (hw : wellFormedEntries es = true) :
    ({ dirs := ds, name := name, read := .ok c } : Visit) ∈ (walkEntries es).1 := by
  induction h with
  | inRoot hmem =>
    exact walkEntries_mem_of_entry _ (walkEntries_no_error _ hw) _ hmem _
      (by simp [walkEntry])
  | inDir hmem _ ih =>
    have hsub := (wellFormedEntry_dir (wellFormedEntries_mem _ hw _ hmem)).2
    obtain ⟨sub1, hs1, hw1⟩ := hsub
    cases hs1
    refine walkEntries_mem_of_entry _ (walkEntries_no_error _ hw) _ hmem _ ?_
    simp only [walkEntry, walk, List.mem_map]
    exact ⟨_, ih hw1, rfl⟩

mutual
theorem walkEntries_hasFile : ∀ (es : List Entry), wellFormedEntries es = true →
    ∀ v ∈ (walkEntries es).1, ∃ c, v.read = .ok c ∧ HasFile es v.dirs v.name c
  | [], _, v, hv => by simp [walkEntries] at hv
  | e :: rest, h, v, hv => by
    have hc := (wellFormedEntries_cons e rest).1 h
    have h1 := walkEntry_no_error e hc.1
    simp only [walkEntries, h1] at hv
    rcases List.mem_append.1 hv with hv1 | hv2
    · exact walkEntry_hasFile e hc.1 rest v hv1
    · obtain ⟨c, hr, hf⟩ := walkEntries_hasFile rest hc.2.2 v hv2
      exact ⟨c, hr, hf.mono (fun x hx => List.mem_cons_of_mem _ hx)⟩
theorem walkEntry_hasFile : ∀ (e : Entry), wellFormedEntry e = true → ∀ (rest : List Entry),
    ∀ v ∈ (walkEntry e).1, ∃ c, v.read = .ok c ∧ HasFile (e :: rest) v.dirs v.name c
  | .file name (.error err), h, _, _, _ => by simp [wellFormedEntry] at h
  | .file name (.ok c), _, rest, v, hv => by
    simp only [walkEntry, List.mem_singleton] at hv
    subst hv
    exact ⟨c, rfl, HasFile.inRoot (List.mem_cons_self _ _)⟩
  | .dir name (.error err), h, _, _, _ => by simp [wellFormedEntry, wellFormed] at h
  | .dir name (.ok sub), h, rest, v, hv => by
    have hs : wellFormedEntries sub = true := by
      simp only [wellFormedEntry, wellFormed, Bool.and_eq_true] at h
      exact h.2
    simp only [walkEntry, walk, List.mem_map] at hv
    obtain ⟨w, hw, rfl⟩ := hv
    obtain ⟨c, hr, hf⟩ := walkEntries_hasFile sub hs w hw
    exact ⟨c, hr, HasFile.inDir (List.mem_cons_self _ _) hf⟩
end

theorem HasFile.functional {es : List Entry} {ds : List String} {name : String} {c : Bytes}
    (h : HasFile es ds name c) :
    wellFormedEntries es = true → ∀ c1, HasFile es ds name c1 → c = c1 := by
  induction h with
  | inRoot hmem =>
    intro hw c1 h1
    cases h1 with
    | inRoot hmem1 =>
      have := wellFormedEntries_unique _ hw _ hmem _ hmem1 rfl
      injection this with _ hc
      injection hc
  | inDir hmem _ ih =>
    intro hw c1 h1
    cases h1 with
    | inDir hmem1 hsub1 =>
      have := wellFormedEntries_unique _ hw _ hmem _ hmem1 rfl
      injection this with _ hl
      injection hl with hl
      subst hl
      have hsub := (wellFormedEntry_dir (wellFormedEntries_mem _ hw _ hmem)).2
      obtain ⟨sub1, hs1, hw1⟩ := hsub
      cases hs1
      exact ih hw1 c1 hsub1

theorem HasFile.pathElements {es : List Entry} {ds : List String} {name : String} {c : Bytes}
    (h : HasFile es ds name c) :
    wellFormedEntries es = true → ∀ s ∈ ds ++ [name], isPathElement s = true := by
  induction h with
  | inRoot hmem =>
    intro hw s hs
    simp only [List.nil_append, List.mem_singleton] at hs
    subst hs
    exact (wellFormedEntry_file (wellFormedEntries_mem _ hw _ hmem)).1
  | inDir hmem _ ih =>
    intro hw s hs
    have hd := wellFormedEntry_dir (wellFormedEntries_mem _ hw _ hmem)
    obtain ⟨hname, sub1, hs1, hw1⟩ := hd
    cases hs1
    rcases List.mem_cons.1 hs with rfl | hr
    · exact hname
    · exact ih hw1 s hr

/-! ### Distinct paths have distinct keys -/

theorem isPathElement_iff (s : String) : isPathElement s = true ↔ '/' ∉ s.data := by
  simp [isPathElement]

theorem seg_split : ∀ (a b x y : List Char), '/' ∉ a → '/' ∉ b →
    (x = [] ∨ ∃ t, x = '/' :: t) → (y = [] ∨ ∃ t, y = '/' :: t) →
    a ++ x = b ++ y → a = b ∧ x = y
  | [], [], _, _, _, _, _, _, h => ⟨rfl, by simpa using h⟩
  | [], ch :: b, x, y, _, hb, hx, _, h => by
    exfalso
    rcases hx with rfl | ⟨t, rfl⟩
    · simp at h
    · simp only [List.nil_append, List.cons_append, List.cons.injEq] at h
      exact hb (by simp [← h.1])
  | ch :: a, [], x, y, ha, _, _, hy, h => by
    exfalso
    rcases hy with rfl | ⟨t, rfl⟩
    · simp at h
    · simp only [List.nil_append, List.cons_append, List.cons.injEq] at h
      exact ha (by simp [h.1])
  | ch :: a, ch1 :: b, x, y, ha, hb, hx, hy, h => by
    simp only [List.cons_append, List.cons.injEq] at h
    have ih := seg_split a b x y (fun m => ha (List.mem_cons_of_mem _ m))
      (fun m => hb (List.mem_cons_of_mem _ m)) hx hy h.2
    exact ⟨by rw [h.1, ih.1], ih.2⟩

theorem joinSegs_data_cons (s : String) (rest : List String) :
    (joinSegs (s :: rest)).data = '/' :: (s.data ++ (joinSegs rest).data) := by
  simp [joinSegs, String.data_append]

theorem joinSegs_data_head (segs : List String) :
    (joinSegs segs).data = [] ∨ ∃ t, (joinSegs segs).data = '/' :: t := by
  cases segs with
  | nil => exact Or.inl rfl
  | cons s rest => exact Or.inr ⟨_, joinSegs_data_cons s rest⟩

theorem joinSegs_inj : ∀ (a b : List String), (∀ s ∈ a, isPathElement s = true) →
    (∀ s ∈ b, isPathElement s = true) → joinSegs a = joinSegs b → a = b
  | [], [], _, _, _ => rfl
  | [], s :: r, _, _, h => by
    have := congrArg String.data h
    rw [joinSegs_data_cons] at this
    simp [joinSegs] at this
  | s :: r, [], _, _, h => by
    have := congrArg String.data h
    rw [joinSegs_data_cons] at this
    simp [joinSegs] at this
  | s :: r, s1 :: r1, ha, hb, h => by
    have hd := congrArg String.data h
    rw [joinSegs_data_cons, joinSegs_data_cons] at hd
    simp only [List.cons.injEq, true_and] at hd
    have hs := (isPathElement_iff s).1 (ha s (List.mem_cons_self _ _))
    have hs1 := (isPathElement_iff s1).1 (hb s1 (List.mem_cons_self _ _))
    have sp := seg_split _ _ _ _ hs hs1 (joinSegs_data_head r) (joinSegs_data_head r1) hd
    have e1 : s = s1 := String.ext sp.1
    have e2 : joinSegs r = joinSegs r1 := String.ext sp.2
    rw [e1, joinSegs_inj r r1 (fun x hx => ha x (List.mem_cons_of_mem _ hx))
      (fun x hx => hb x (List.mem_cons_of_mem _ hx)) e2]

theorem joinSegs_append_singleton : ∀ (ds : List String) (name : String),
    joinSegs (ds ++ [name]) = joinSegs ds ++ "/" ++ name
  | [], name => by
    apply String.ext
    simp [joinSegs, String.data_append]
  | d :: ds, name => by
    have ih := joinSegs_append_singleton ds name
    show "/" ++ d ++ joinSegs (ds ++ [name]) = "/" ++ d ++ joinSegs ds ++ "/" ++ name
    rw [ih]
    simp only [String.append_assoc]

theorem relPath_inj (ds ds1 : List String) (name name1 : String)
    (h : ∀ s ∈ ds ++ [name], isPathElement s = true)
    (h1 : ∀ s ∈ ds1 ++ [name1], isPathElement s = true)
    (e : joinSegs ds ++ "/" ++ name = joinSegs ds1 ++ "/" ++ name1) :
    ds = ds1 ∧ name = name1 := by
  rw [← joinSegs_append_singleton, ← joinSegs_append_singleton] at e
  have := joinSegs_inj _ _ h h1 e
  have l := List.append_inj' this rfl
  exact ⟨l.1, by simpa using l.2⟩

/-! ### The store built by `main` -/

theorem storeVisit_tick_le (lib : Lib) (clock : Nat → Time) (elig : String → Bool)
    (pfx : String) (st : (FileMap × EtagMap) × Nat) (v : Visit) :
    st.2 ≤ (storeVisit lib clock elig pfx st v).2 := by
  unfold storeVisit
  split
  · split
    · exact Nat.le_refl _
    · exact Nat.le_succ _
  · exact Nat.le_refl _

theorem foldl_storeVisit_tick_le (lib : Lib) (clock : Nat → Time) (elig : String → Bool)
    (pfx : String) : ∀ (vs : List Visit) (st : (FileMap × EtagMap) × Nat),
    st.2 ≤ (vs.foldl (storeVisit lib clock elig pfx) st).2
  | [], _ => Nat.le_refl _
  | v :: vs, st =>
    Nat.le_trans (storeVisit_tick_le lib clock elig pfx st v)
      (foldl_storeVisit_tick_le lib clock elig pfx vs _)

theorem foldl_storeVisit_value (lib : Lib) (clock : Nat → Time) (elig : String → Bool)
    (pfx : String) (k : String) (c : Bytes) :
    ∀ (vs : List Visit) (st : (FileMap × EtagMap) × Nat),
    Hits elig pfx vs k →
    (∀ w ∈ vs, elig w.name = true → pfx ++ w.relPath = k → w.read = .ok c) →
    (∃ t, st.2 ≤ t ∧ t < (vs.foldl (storeVisit lib clock elig pfx) st).2 ∧
      (vs.foldl (storeVisit lib clock elig pfx) st).1.1 k =
        some { content := c, modTime := clock t }) ∧
    (vs.foldl (storeVisit lib clock elig pfx) st).1.2 k = some (etagOf lib c)
  | [], _, h, _ => by
    obtain ⟨v, hv, _⟩ := h
    cases hv
  | v :: vs, st, h, hall => by
    simp only [List.foldl_cons]
    by_cases hvs : Hits elig pfx vs k
    · obtain ⟨⟨t, h1, h2, h3⟩, h4⟩ := foldl_storeVisit_value lib clock elig pfx k c vs
        (storeVisit lib clock elig pfx st v) hvs
        (fun w hw => hall w (List.mem_cons_of_mem _ hw))
      exact ⟨⟨t, Nat.le_trans (storeVisit_tick_le lib clock elig pfx st v) h1, h2, h3⟩, h4⟩
    · have hv : elig v.name = true ∧ (∃ c, v.read = .ok c) ∧ pfx ++ v.relPath = k := by
        obtain ⟨w, hw, hh⟩ := h
        rcases List.mem_cons.1 hw with rfl | hw
        · exact hh
        · exact absurd ⟨w, hw, hh⟩ hvs
      have hc := hall v (List.mem_cons_self _ _) hv.1 hv.2.2
      have a := foldl_storeVisit_miss lib clock elig pfx k vs
        (storeVisit lib clock elig pfx st v) hvs
      have x := storeVisit_hit lib clock elig pfx st v c hv.1 hc
      rw [hv.2.2] at x
      have hs : (storeVisit lib clock elig pfx st v).2 = st.2 + 1 := by
        simp [storeVisit, hv.1, hc]
      have hl := foldl_storeVisit_tick_le lib clock elig pfx vs
        (storeVisit lib clock elig pfx st v)
      rw [hs] at hl
      exact ⟨⟨st.2, Nat.le_refl _, hl, a.1.trans x.1⟩, a.2.trans x.2⟩

theorem walkEntries_value (lib : Lib) (clock : Nat → Time) (elig : String → Bool)
    (es : List Entry) (hw : wellFormedEntries es = true) (st : (FileMap × EtagMap) × Nat)
    (ds : List String) (name : String) (c : Bytes) (hf : HasFile es ds name c)
    (he : elig name = true) :
    (∃ t, st.2 ≤ t ∧ t < ((walkEntries es).1.foldl (storeVisit lib clock elig "") st).2 ∧
      ((walkEntries es).1.foldl (storeVisit lib clock elig "") st).1.1
        (joinSegs ds ++ "/" ++ name) = some { content := c, modTime := clock t }) ∧
    ((walkEntries es).1.foldl (storeVisit lib clock elig "") st).1.2
      (joinSegs ds ++ "/" ++ name) = some (etagOf lib c) := by
  apply foldl_storeVisit_value
  · exact ⟨_, hf.visited hw, he, ⟨c, rfl⟩, by simp [Visit.relPath]⟩
  · intro w hwm _ hk
    obtain ⟨c1, hr, hf1⟩ := walkEntries_hasFile es hw w hwm
    have hk1 : joinSegs w.dirs ++ "/" ++ w.name = joinSegs ds ++ "/" ++ name := by
      simpa [Visit.relPath] using hk
    have e := relPath_inj _ _ _ _ (hf1.pathElements hw) (hf.pathElements hw) hk1
    rw [e.1, e.2] at hf1
    rw [hr, hf.functional hw c1 hf1]

theorem Hits.hasFile {elig : String → Bool} {es : List Entry} {k : String}
    (hw : wellFormedEntries es = true) (h : Hits elig "" (walkEntries es).1 k) :
    ∃ ds name c, k = joinSegs ds ++ "/" ++ name ∧ HasFile es ds name c ∧ elig name = true := by
  obtain ⟨v, hv, he, _, hk⟩ := h
  obtain ⟨c, _, hf⟩ := walkEntries_hasFile es hw v hv
  exact ⟨v.dirs, v.name, c, by simpa [Visit.relPath] using hk.symm, hf, he⟩

theorem mainLoad_eq_walk (lib : Lib) (clock : Nat → Time) (jt it : List Entry)
    (hj : wellFormedEntries jt = true) :
    (mainLoad lib clock (.ok jt) (.ok it)).err = (walkEntries it).2 ∧
    (mainLoad lib clock (.ok jt) (.ok it)).state =
      (walkEntries it).1.foldl (storeVisit lib clock (isImageFile lib) "")
        ((walkEntries jt).1.foldl (storeVisit lib clock isJSONFile "")
          ((emptyMap, emptyMap), 0)) := by
  have e1 := loadJSONFiles_eq_walk lib clock (.ok jt) "json" "" emptyMap emptyMap 0
  have n1 : (loadJSONFiles lib clock (.ok jt) "json" "" emptyMap emptyMap 0).err = none := by
    rw [e1.1]
    simpa [walk] using walkEntries_no_error jt hj
  have e2 := loadImageFiles_eq_walk lib clock (.ok it) "images" ""
    (loadJSONFiles lib clock (.ok jt) "json" "" emptyMap emptyMap 0).files
    (loadJSONFiles lib clock (.ok jt) "json" "" emptyMap emptyMap 0).etags
    (loadJSONFiles lib clock (.ok jt) "json" "" emptyMap emptyMap 0).tick
  have e1m := e1.2
  simp only [LoadResult.state, LoadResult.maps, walk] at e1m e2
  simp only [mainLoad, n1, LoadResult.state, LoadResult.maps]
  rw [← e1m]
  exact ⟨by simpa [walk] using e2.1, e2.2⟩

/-- C7: for two well-formed source trees (every directory listed, every file
read, names that are single path elements and unique within their directory),
the store `main` builds from empty maps holds, for every file of the data tree
whose name ends in `.json` and every file of the image tree whose name satisfies
`isImageFile`, the bytes of that file at the key `/` followed by its path
relative to the tree root (with a reading of the clock as `modTime`), and it has
no other key. -/
theorem mainLoad_store_exact (lib : Lib) (clock : Nat → Time) (jt it : List Entry)
    (hj : wellFormedEntries jt = true) (hi : wellFormedEntries it = true) :
    (mainLoad lib clock (.ok jt) (.ok it)).err = none ∧
    (∀ ds name c, HasFile jt ds name c → hasSuffix name ".json" = true →
      ∃ t, t < (mainLoad lib clock (.ok jt) (.ok it)).tick ∧
        (mainLoad lib clock (.ok jt) (.ok it)).files (joinSegs ds ++ "/" ++ name) =
          some { content := c, modTime := clock t }) ∧
    (∀ ds name c, HasFile it ds name c → isImageFile lib name = true →
      ∃ t, t < (mainLoad lib clock (.ok jt) (.ok it)).tick ∧
        (mainLoad lib clock (.ok jt) (.ok it)).files (joinSegs ds ++ "/" ++ name) =
          some { content := c, modTime := clock t }) ∧
    (∀ k, (mainLoad lib clock (.ok jt) (.ok it)).files k ≠ none →
      ∃ ds name c, k = joinSegs ds ++ "/" ++ name ∧
        ((HasFile jt ds name c ∧ hasSuffix name ".json" = true) ∨
         (HasFile it ds name c ∧ isImageFile lib name = true))) := by
  obtain ⟨herr, hmaps⟩ := mainLoad_eq_walk lib clock jt it hj
  have hfiles : ∀ k, (mainLoad lib clock (.ok jt) (.ok it)).files k =
      ((walkEntries it).1.foldl (storeVisit lib clock (isImageFile lib) "")
        ((walkEntries jt).1.foldl (storeVisit lib clock isJSONFile "")
          ((emptyMap, emptyMap), 0))).1.1 k := by
    intro k
    rw [← hmaps]
    rfl
  have htick : (mainLoad lib clock (.ok jt) (.ok it)).tick =
      ((walkEntries it).1.foldl (storeVisit lib clock (isImageFile lib) "")
        ((walkEntries jt).1.foldl (storeVisit lib clock isJSONFile "")
          ((emptyMap, emptyMap), 0))).2 := by
    rw [← hmaps]
    rfl
  refine ⟨?_, ?_, ?_, ?_⟩
  · rw [herr]
    exact walkEntries_no_error it hi
  · intro ds name c hf he
    have hitJ : Hits isJSONFile "" (walkEntries jt).1 (joinSegs ds ++ "/" ++ name) :=
      ⟨_, hf.visited hj, he, ⟨c, rfl⟩, by simp [Visit.relPath]⟩
    have hmiss : ¬ Hits (isImageFile lib) "" (walkEntries it).1 (joinSegs ds ++ "/" ++ name) :=
      fun hI => Hits.json_image_disjoint lib "" "" _ _ _ ⟨hitJ, hI⟩
    obtain ⟨t, _, ht1, ht⟩ := (walkEntries_value lib clock isJSONFile jt hj
      ((emptyMap, emptyMap), 0) ds name c hf he).1
    refine ⟨t, ?_, ?_⟩
    · rw [htick]
      exact Nat.lt_of_lt_of_le ht1 (foldl_storeVisit_tick_le lib clock _ "" _ _)
    · rw [hfiles, (foldl_storeVisit_miss lib clock (isImageFile lib) "" _ _ _ hmiss).1]
      exact ht
  · intro ds name c hf he
    obtain ⟨t, _, ht1, ht⟩ := (walkEntries_value lib clock (isImageFile lib) it hi
      ((walkEntries jt).1.foldl (storeVisit lib clock isJSONFile "")
        ((emptyMap, emptyMap), 0)) ds name c hf he).1
    exact ⟨t, by rw [htick]; exact ht1, by rw [hfiles]; exact ht⟩
  · intro k hk
    rw [hfiles] at hk
    by_cases hI : Hits (isImageFile lib) "" (walkEntries it).1 k
    · obtain ⟨ds, name, c, e, hf, he⟩ := Hits.hasFile hi hI
      exact ⟨ds, name, c, e, Or.inr ⟨hf, he⟩⟩
    · rw [(foldl_storeVisit_miss lib clock (isImageFile lib) "" _ _ _ hI).1] at hk
      by_cases hJ : Hits isJSONFile "" (walkEntries jt).1 k
      · obtain ⟨ds, name, c, e, hf, he⟩ := Hits.hasFile hj hJ
        exact ⟨ds, name, c, e, Or.inl ⟨hf, he⟩⟩
      · rw [(foldl_storeVisit_miss lib clock isJSONFile "" _ _ _ hJ).1] at hk
        exact absurd rfl hk

theorem mainLoad_store_exact_witness :
    (wellFormedEntries sampleJSONEntries = true ∧
      wellFormedEntries sampleImageEntries = true) ∧
    (mainLoad Lib.sample sampleClock (.ok sampleJSONEntries) (.ok sampleImageEntries)).err
      = none ∧
    ∃ t, t < (mainLoad Lib.sample sampleClock (.ok sampleJSONEntries)
        (.ok sampleImageEntries)).tick ∧
      (mainLoad Lib.sample sampleClock (.ok sampleJSONEntries)
        (.ok sampleImageEntries)).files (joinSegs ["coolify"] ++ "/" ++ "nightly.json") =
        some { content := [91, 93], modTime := sampleClock t } :=
  have h := mainLoad_store_exact Lib.sample sampleClock sampleJSONEntries sampleImageEntries
    (by decide) (by decide)
  ⟨⟨by decide, by decide⟩, h.1,
    h.2.1 ["coolify"] "nightly.json" [91, 93]
      (@HasFile.inDir sampleJSONEntries [.file "nightly.json" (.ok [91, 93])] "coolify" []
        "nightly.json" [91, 93] (by simp [sampleJSONEntries]) (HasFile.inRoot (by simp)))
      (by decide)⟩

theorem loaders_keep_files_and_etags_consistent_witness :
    (∀ k, ((emptyMap : FileMap) k).isSome = ((emptyMap : EtagMap) k).isSome) ∧
    (∀ k, ((loadJSONFiles Lib.sample sampleClock sampleJSONTree "json" "" emptyMap emptyMap
        0).files k).isSome =
      ((loadJSONFiles Lib.sample sampleClock sampleJSONTree "json" "" emptyMap emptyMap
        0).etags k).isSome) :=
  ⟨fun _ => rfl,
    (loaders_keep_files_and_etags_consistent Lib.sample sampleClock 0 sampleJSONTree
      sampleJSONTree sampleImageTree "json" "" emptyMap emptyMap (fun _ => rfl)).1⟩

/-! ### Errors of the loaders -/

mutual
theorem walk_error_iff : ∀ (l : Except Error (List Entry)),
    (walk l).2.isSome = listingFails l
  | .error err => by simp [walk, listingFails]
  | .ok es => by simpa [walk, listingFails] using walkEntries_error_iff es
theorem walkEntries_error_iff : ∀ (es : List Entry),
    (walkEntries es).2.isSome = entriesListingFails es
  | [] => by simp [walkEntries, entriesListingFails]
  | e :: rest => by
    have h1 := walkEntry_error_iff e
    have h2 := walkEntries_error_iff rest
    simp only [walkEntries, entriesListingFails, ← h1, ← h2]
    cases (walkEntry e).2 <;> simp
theorem walkEntry_error_iff : ∀ (e : Entry), (walkEntry e).2.isSome = entryListingFails e
  | .file name read => by simp [walkEntry, entryListingFails]
  | .dir name l => by simpa [walkEntry, entryListingFails] using walk_error_iff l
end

theorem walkEntries_append : ∀ (a b : List Entry),
    walkEntries (a ++ b) =
      match (walkEntries a).2 with
      | some err => ((walkEntries a).1, some err)
      | none => ((walkEntries a).1 ++ (walkEntries b).1, (walkEntries b).2)
  | [], b => by simp [walkEntries]
  | e :: a, b => by
    have ih := walkEntries_append a b
    simp only [List.cons_append, walkEntries]
    cases he : (walkEntry e).2 <;> cases ha : (walkEntries a).2 <;> simp [ha] at ih <;>
      simp [ih, ha]

theorem wasRead_under (d : String) (v : Visit) : (v.under d).wasRead = v.wasRead := rfl

mutual
theorem walk_dropUnreadable : ∀ (l : Except Error (List Entry)),
    walk (dropUnreadable l) = ((walk l).1.filter Visit.wasRead, (walk l).2)
  | .error err => by simp [walk, dropUnreadable]
  | .ok es => by simpa [walk, dropUnreadable] using walkEntries_dropUnreadable es
theorem walkEntries_dropUnreadable : ∀ (es : List Entry),
    walkEntries (dropUnreadableEntries es) =
      ((walkEntries es).1.filter Visit.wasRead, (walkEntries es).2)
  | [] => by simp [walkEntries, dropUnreadableEntries]
  | e :: rest => by
    have h1 := walkEntry_dropUnreadable e
    have h2 := walkEntries_dropUnreadable rest
    simp only [dropUnreadableEntries, walkEntries_append, h1, h2, walkEntries]
    cases (walkEntry e).2 <;> simp
theorem walkEntry_dropUnreadable : ∀ (e : Entry),
    walkEntries (dropUnreadableEntry e) =
      ((walkEntry e).1.filter Visit.wasRead, (walkEntry e).2)
  | .file name (.ok c) => by
    simp [dropUnreadableEntry, walkEntries, walkEntry, Visit.wasRead]
  | .file name (.error err) => by
    simp [dropUnreadableEntry, walkEntries, walkEntry, Visit.wasRead]
  | .dir name l => by
    have h := walk_dropUnreadable l
    simp only [dropUnreadableEntry, walkEntries, walkEntry, h, List.filter_map]
    have hc : Visit.wasRead ∘ Visit.under name = Visit.wasRead := by
      funext v
      exact wasRead_under name v
    rw [hc]
    cases (walk l).2 <;> simp
end

theorem foldl_storeVisit_filter (lib : Lib) (clock : Nat → Time) (elig : String → Bool)
    (pfx : String) : ∀ (vs : List Visit) (st : (FileMap × EtagMap) × Nat),
    (vs.filter Visit.wasRead).foldl (storeVisit lib clock elig pfx) st =
      vs.foldl (storeVisit lib clock elig pfx) st
  | [], _ => rfl
  | v :: vs, st => by
    have ih := foldl_storeVisit_filter lib clock elig pfx vs
    cases hr : v.read with
    | ok c =>
      have hw : v.wasRead = true := by simp [Visit.wasRead, hr]
      simp only [List.filter_cons, hw, if_true, List.foldl_cons, ih]
    | error err =>
      have hw : v.wasRead = false := by simp [Visit.wasRead, hr]
      have hs : storeVisit lib clock elig pfx st v = st := by
        simp [storeVisit, hr]
      simp [List.filter_cons, hw, List.foldl_cons, ih, hs]

theorem dropUnreadableEntries_mem : ∀ (es : List Entry), ∀ e ∈ es,
    ∀ x ∈ dropUnreadableEntry e, x ∈ dropUnreadableEntries es
  | [], e, he, _, _ => by cases he
  | y :: rest, e, he, x, hx => by
    simp only [dropUnreadableEntries, List.mem_append]
    rcases List.mem_cons.1 he with rfl | hr
    · exact Or.inl hx
    · exact Or.inr (dropUnreadableEntries_mem rest e hr x hx)

theorem HasFile.dropUnreadable {es : List Entry} {ds : List String} {name : String}
    {c : Bytes} (h : HasFile es ds name c) :
    HasFile (dropUnreadableEntries es) ds name c := by
  induction h with
  | inRoot hmem =>
    exact HasFile.inRoot (dropUnreadableEntries_mem _ _ hmem _ (by simp [dropUnreadableEntry]))
  | inDir hmem _ ih =>
    exact HasFile.inDir
      (dropUnreadableEntries_mem _ _ hmem _
        (by simp [dropUnreadableEntry, CoollabsCdn.dropUnreadable]))
      ih

theorem loadJSONFiles_dropUnreadable (lib : Lib) (clock : Nat → Time)
    (l : Except Error (List Entry)) (dir pfx : String) (files : FileMap) (etags : EtagMap)
    (tick : Nat) :
    (loadJSONFiles lib clock (dropUnreadable l) dir pfx files etags tick).err =
      (loadJSONFiles lib clock l dir pfx files etags tick).err ∧
    (loadJSONFiles lib clock (dropUnreadable l) dir pfx files etags tick).state =
      (loadJSONFiles lib clock l dir pfx files etags tick).state := by
  have a := loadJSONFiles_eq_walk lib clock (dropUnreadable l) dir pfx files etags tick
  have b := loadJSONFiles_eq_walk lib clock l dir pfx files etags tick
  rw [a.1, a.2, b.1, b.2, walk_dropUnreadable]
  exact ⟨rfl, foldl_storeVisit_filter lib clock _ pfx _ _⟩

theorem loadImageFiles_dropUnreadable (lib : Lib) (clock : Nat → Time)
    (l : Except Error (List Entry)) (dir pfx : String) (files : FileMap) (etags : EtagMap)
    (tick : Nat) :
    (loadImageFiles lib clock (dropUnreadable l) dir pfx files etags tick).err =
      (loadImageFiles lib clock l dir pfx files etags tick).err ∧
    (loadImageFiles lib clock (dropUnreadable l) dir pfx files etags tick).state =
      (loadImageFiles lib clock l dir pfx files etags tick).state := by
  have a := loadImageFiles_eq_walk lib clock (dropUnreadable l) dir pfx files etags tick
  have b := loadImageFiles_eq_walk lib clock l dir pfx files etags tick
  rw [a.1, a.2, b.1, b.2, walk_dropUnreadable]
  exact ⟨rfl, foldl_storeVisit_filter lib clock _ pfx _ _⟩

theorem option_ne_none_iff_isSome {α : Type} (o : Option α) (b : Bool) (h : o.isSome = b) :
    o ≠ none ↔ b = true := by
  cases o <;> simp_all

/-- C11: `loadJSONFiles` and `loadImageFiles` return an error exactly when some
directory of the tree (the root or a nested one) cannot be listed; a file that
cannot be read yields no error and leaves both maps as they were; each loader
treats the tree exactly as the tree without its unreadable files; and when the
entries that remain are well formed, every readable eligible file of the tree
is stored with its bytes. -/
theorem loaders_error_iff_listing_fails (lib : Lib) (clock : Nat → Time) (tick : Nat)
    (l : Except Error (List Entry)) (es : List Entry) (dir pfx : String) (files : FileMap)
    (etags : EtagMap) (name : String) (e : Error)
    (hw : wellFormedEntries (dropUnreadableEntries es) = true) :
    ((loadJSONFiles lib clock l dir pfx files etags tick).err ≠ none ↔
      listingFails l = true) ∧
    ((loadImageFiles lib clock l dir pfx files etags tick).err ≠ none ↔
      listingFails l = true) ∧
    ((loadJSONEntry lib clock (.file name (.error e)) dir pfx files etags tick).err = none ∧
      (loadJSONEntry lib clock (.file name (.error e)) dir pfx files etags tick).maps =
        (files, etags) ∧
      (loadJSONEntry lib clock (.file name (.error e)) dir pfx files etags tick).tick =
        tick) ∧
    ((loadImageEntry lib clock (.file name (.error e)) dir pfx files etags tick).err = none ∧
      (loadImageEntry lib clock (.file name (.error e)) dir pfx files etags tick).maps =
        (files, etags) ∧
      (loadImageEntry lib clock (.file name (.error e)) dir pfx files etags tick).tick =
        tick) ∧
    ((loadJSONFiles lib clock (dropUnreadable l) dir pfx files etags tick).err =
        (loadJSONFiles lib clock l dir pfx files etags tick).err ∧
      (loadJSONFiles lib clock (dropUnreadable l) dir pfx files etags tick).maps =
        (loadJSONFiles lib clock l dir pfx files etags tick).maps ∧
      (loadJSONFiles lib clock (dropUnreadable l) dir pfx files etags tick).tick =
        (loadJSONFiles lib clock l dir pfx files etags tick).tick) ∧
    ((loadImageFiles lib clock (dropUnreadable l) dir pfx files etags tick).err =
        (loadImageFiles lib clock l dir pfx files etags tick).err ∧
      (loadImageFiles lib clock (dropUnreadable l) dir pfx files etags tick).maps =
        (loadImageFiles lib clock l dir pfx files etags tick).maps ∧
      (loadImageFiles lib clock (dropUnreadable l) dir pfx files etags tick).tick =
        (loadImageFiles lib clock l dir pfx files etags tick).tick) ∧
    (∀ ds n c, HasFile es ds n c → hasSuffix n ".json" = true →
      (loadJSONFiles lib clock (.ok es) dir "" files etags tick).err = none ∧
      ∃ t, tick ≤ t ∧ t < (loadJSONFiles lib clock (.ok es) dir "" files etags tick).tick ∧
        (loadJSONFiles lib clock (.ok es) dir "" files etags tick).files
          (joinSegs ds ++ "/" ++ n) = some { content := c, modTime := clock t }) ∧
    (∀ ds n c, HasFile es ds n c → isImageFile lib n = true →
      (loadImageFiles lib clock (.ok es) dir "" files etags tick).err = none ∧
      ∃ t, tick ≤ t ∧ t < (loadImageFiles lib clock (.ok es) dir "" files etags tick).tick ∧
        (loadImageFiles lib clock (.ok es) dir "" files etags tick).files
          (joinSegs ds ++ "/" ++ n) = some { content := c, modTime := clock t }) := by
  refine ⟨?_, ?_, ?_, ?_, ?_, ?_, ?_, ?_⟩
  · rw [(loadJSONFiles_eq_walk lib clock l dir pfx files etags tick).1]
    exact option_ne_none_iff_isSome _ _ (walk_error_iff l)
  · rw [(loadImageFiles_eq_walk lib clock l dir pfx files etags tick).1]
    exact option_ne_none_iff_isSome _ _ (walk_error_iff l)
  · by_cases hj : hasSuffix name ".json" = true <;>
      simp [loadJSONEntry, LoadResult.maps, hj]
  · by_cases hj : isImageFile lib name = true <;>
      simp [loadImageEntry, LoadResult.maps, hj]
  · have d := loadJSONFiles_dropUnreadable lib clock l dir pfx files etags tick
    exact ⟨d.1, congrArg Prod.fst d.2, congrArg Prod.snd d.2⟩
  · have d := loadImageFiles_dropUnreadable lib clock l dir pfx files etags tick
    exact ⟨d.1, congrArg Prod.fst d.2, congrArg Prod.snd d.2⟩
  · intro ds n c hf he
    have d := loadJSONFiles_dropUnreadable lib clock (.ok es) dir "" files etags tick
    have w := loadJSONFiles_eq_walk lib clock (dropUnreadable (.ok es)) dir "" files etags tick
    rw [← d.1, w.1]
    refine ⟨by simpa [dropUnreadable, walk] using walkEntries_no_error _ hw, ?_⟩
    have hm : (loadJSONFiles lib clock (.ok es) dir "" files etags tick).files =
        (loadJSONFiles lib clock (.ok es) dir "" files etags tick).state.1.1 := rfl
    have hk : (loadJSONFiles lib clock (.ok es) dir "" files etags tick).tick =
        (loadJSONFiles lib clock (.ok es) dir "" files etags tick).state.2 := rfl
    rw [hm, hk, ← d.2, w.2]
    simp only [dropUnreadable, walk]
    exact (walkEntries_value lib clock isJSONFile _ hw ((files, etags), tick) ds n c
      hf.dropUnreadable he).1
  · intro ds n c hf he
    have d := loadImageFiles_dropUnreadable lib clock (.ok es) dir "" files etags tick
    have w := loadImageFiles_eq_walk lib clock (dropUnreadable (.ok es)) dir "" files etags tick
    rw [← d.1, w.1]
    refine ⟨by simpa [dropUnreadable, walk] using walkEntries_no_error _ hw, ?_⟩
    have hm : (loadImageFiles lib clock (.ok es) dir "" files etags tick).files =
        (loadImageFiles lib clock (.ok es) dir "" files etags tick).state.1.1 := rfl
    have hk : (loadImageFiles lib clock (.ok es) dir "" files etags tick).tick =
        (loadImageFiles lib clock (.ok es) dir "" files etags tick).state.2 := rfl
    rw [hm, hk, ← d.2, w.2]
    simp only [dropUnreadable, walk]
    exact (walkEntries_value lib clock (isImageFile lib) _ hw ((files, etags), tick) ds n c
      hf.dropUnreadable he).1

theorem loaders_error_iff_listing_fails_witness :
    wellFormedEntries (dropUnreadableEntries sampleUnreadableEntries) = true ∧
    ((loadJSONFiles Lib.sample sampleClock sampleJSONTree "json" "" emptyMap emptyMap 0).err
        ≠ none ↔ listingFails sampleJSONTree = true) ∧
    ((loadJSONFiles Lib.sample sampleClock (.ok sampleUnreadableEntries) "json" "" emptyMap
        emptyMap 0).err = none ∧
      ∃ t, 0 ≤ t ∧
        t < (loadJSONFiles Lib.sample sampleClock (.ok sampleUnreadableEntries) "json" ""
          emptyMap emptyMap 0).tick ∧
        (loadJSONFiles Lib.sample sampleClock (.ok sampleUnreadableEntries) "json" ""
          emptyMap emptyMap 0).files (joinSegs ["coolify"] ++ "/" ++ "nightly.json") =
        some { content := [91, 93], modTime := sampleClock t }) :=
  have h := loaders_error_iff_listing_fails Lib.sample sampleClock 0 sampleJSONTree
    sampleUnreadableEntries "json" "" emptyMap emptyMap "broken.json" "i/o error" (by decide)
  ⟨by decide, h.1,
    h.2.2.2.2.2.2.1 ["coolify"] "nightly.json" [91, 93]
      (@HasFile.inDir sampleUnreadableEntries
        [.file "gone.json" (.error "i/o error"), .file "nightly.json" (.ok [91, 93])]
        "coolify" [] "nightly.json" [91, 93] (by simp [sampleUnreadableEntries])
        (HasFile.inRoot (by simp)))
      (by decide)⟩

/-! ### Content types -/

theorem hasSuffix_exclusive (s a b : String) (ha : hasSuffix s a = true)
    (hab : a.data.isSuffixOf b.data = false) (hba : b.data.isSuffixOf a.data = false) :
    hasSuffix s b = false := by
  cases hb : hasSuffix s b with
  | false => rfl
  | true =>
    exfalso
    rw [hasSuffix_iff] at ha hb
    rcases Nat.le_total a.data.length b.data.length with hl | hl
    · have := List.suffix_of_suffix_length_le ha hb hl
      rw [← List.isSuffixOf_iff_suffix, hab] at this
      exact Bool.noConfusion this
    · have := List.suffix_of_suffix_length_le hb ha hl
      rw [← List.isSuffixOf_iff_suffix, hba] at this
      exact Bool.noConfusion this

theorem getContentType_table (lib : Lib) (p : String) :
    ∀ e ∈ extensionMIMETable, hasSuffix (toLower lib p) e.1 = true →
      getContentType lib p = e.2 := by
  intro e he h
  simp only [extensionMIMETable, List.mem_cons, List.mem_singleton, List.not_mem_nil,
    or_false] at he
  rcases he with rfl | rfl | rfl | rfl | rfl | rfl | rfl | rfl | rfl
  · simp only [] at h
    simp [getContentType, h,
      hasSuffix_exclusive _ _ ".png" h (by decide) (by decide),
      hasSuffix_exclusive _ _ ".jpg" h (by decide) (by decide),
      hasSuffix_exclusive _ _ ".jpeg" h (by decide) (by decide),
      hasSuffix_exclusive _ _ ".gif" h (by decide) (by decide),
      hasSuffix_exclusive _ _ ".webp" h (by decide) (by decide),
      hasSuffix_exclusive _ _ ".svg" h (by decide) (by decide),
      hasSuffix_exclusive _ _ ".bmp" h (by decide) (by decide),
      hasSuffix_exclusive _ _ ".ico" h (by decide) (by decide)]
  · simp only [] at h
    simp [getContentType, h,
      hasSuffix_exclusive _ _ ".json" h (by decide) (by decide),
      hasSuffix_exclusive _ _ ".jpg" h (by decide) (by decide),
      hasSuffix_exclusive _ _ ".jpeg" h (by decide) (by decide),
      hasSuffix_exclusive _ _ ".gif" h (by decide) (by decide),
      hasSuffix_exclusive _ _ ".webp" h (by decide) (by decide),
      hasSuffix_exclusive _ _ ".svg" h (by decide) (by decide),
      hasSuffix_exclusive _ _ ".bmp" h (by decide) (by decide),
      hasSuffix_exclusive _ _ ".ico" h (by decide) (by decide)]
  · simp only [] at h
    simp [getContentType, h,
      hasSuffix_exclusive _ _ ".json" h (by decide) (by decide),
      hasSuffix_exclusive _ _ ".png" h (by decide) (by decide),
      hasSuffix_exclusive _ _ ".jpeg" h (by decide) (by decide),
      hasSuffix_exclusive _ _ ".gif" h (by decide) (by decide),
      hasSuffix_exclusive _ _ ".webp" h (by decide) (by decide),
      hasSuffix_exclusive _ _ ".svg" h (by decide) (by decide),
      hasSuffix_exclusive _ _ ".bmp" h (by decide) (by decide),
      hasSuffix_exclusive _ _ ".ico" h (by decide) (by decide)]
  · simp only [] at h
    simp [getContentType, h,
      hasSuffix_exclusive _ _ ".json" h (by decide) (by decide),
      hasSuffix_exclusive _ _ ".png" h (by decide) (by decide),
      hasSuffix_exclusive _ _ ".jpg" h (by decide) (by decide),
      hasSuffix_exclusive _ _ ".gif" h (by decide) (by decide),
      hasSuffix_exclusive _ _ ".webp" h (by decide) (by decide),
      hasSuffix_exclusive _ _ ".svg" h (by decide) (by decide),
      hasSuffix_exclusive _ _ ".bmp" h (by decide) (by decide),
      hasSuffix_exclusive _ _ ".ico" h (by decide) (by decide)]
  · simp only [] at h
    simp [getContentType, h,
      hasSuffix_exclusive _ _ ".json" h (by decide) (by decide),
      hasSuffix_exclusive _ _ ".png" h (by decide) (by decide),
      hasSuffix_exclusive _ _ ".jpg" h (by decide) (by decide),
      hasSuffix_exclusive _ _ ".jpeg" h (by decide) (by decide),
      hasSuffix_exclusive _ _ ".webp" h (by decide) (by decide),
      hasSuffix_exclusive _ _ ".svg" h (by decide) (by decide),
      hasSuffix_exclusive _ _ ".bmp" h (by decide) (by decide),
      hasSuffix_exclusive _ _ ".ico" h (by decide) (by decide)]
  · simp only [] at h
    simp [getContentType, h,
      hasSuffix_exclusive _ _ ".json" h (by decide) (by decide),
      hasSuffix_exclusive _ _ ".png" h (by decide) (by decide),
      hasSuffix_exclusive _ _ ".jpg" h (by decide) (by decide),
      hasSuffix_exclusive _ _ ".jpeg" h (by decide) (by decide),
      hasSuffix_exclusive _ _ ".gif" h (by decide) (by decide),
      hasSuffix_exclusive _ _ ".svg" h (by decide) (by decide),
      hasSuffix_exclusive _ _ ".bmp" h (by decide) (by decide),
      hasSuffix_exclusive _ _ ".ico" h (by decide) (by decide)]
  · simp only [] at h
    simp [getContentType, h,
      hasSuffix_exclusive _ _ ".json" h (by decide) (by decide),
      hasSuffix_exclusive _ _ ".png" h (by decide) (by decide),
      hasSuffix_exclusive _ _ ".jpg" h (by decide) (by decide),
      hasSuffix_exclusive _ _ ".jpeg" h (by decide) (by decide),
      hasSuffix_exclusive _ _ ".gif" h (by decide) (by decide),
      hasSuffix_exclusive _ _ ".webp" h (by decide) (by decide),
      hasSuffix_exclusive _ _ ".bmp" h (by decide) (by decide),
      hasSuffix_exclusive _ _ ".ico" h (by decide) (by decide)]
  · simp only [] at h
    simp [getContentType, h,
      hasSuffix_exclusive _ _ ".json" h (by decide) (by decide),
      hasSuffix_exclusive _ _ ".png" h (by decide) (by decide),
      hasSuffix_exclusive _ _ ".jpg" h (by decide) (by decide),
      hasSuffix_exclusive _ _ ".jpeg" h (by decide) (by decide),
      hasSuffix_exclusive _ _ ".gif" h (by decide) (by decide),
      hasSuffix_exclusive _ _ ".webp" h (by decide) (by decide),
      hasSuffix_exclusive _ _ ".svg" h (by decide) (by decide),
      hasSuffix_exclusive _ _ ".ico" h (by decide) (by decide)]
  · simp only [] at h
    simp [getContentType, h,
      hasSuffix_exclusive _ _ ".json" h (by decide) (by decide),
      hasSuffix_exclusive _ _ ".png" h (by decide) (by decide),
      hasSuffix_exclusive _ _ ".jpg" h (by decide) (by decide),
      hasSuffix_exclusive _ _ ".jpeg" h (by decide) (by decide),
      hasSuffix_exclusive _ _ ".gif" h (by decide) (by decide),
      hasSuffix_exclusive _ _ ".webp" h (by decide) (by decide),
      hasSuffix_exclusive _ _ ".svg" h (by decide) (by decide),
      hasSuffix_exclusive _ _ ".bmp" h (by decide) (by decide)]

theorem getContentType_otherwise (lib : Lib) (p : String)
    (h : ∀ e ∈ extensionMIMETable, hasSuffix (toLower lib p) e.1 = false) :
    getContentType lib p = "" := by
  have h1 := h (".json", "application/json") (by simp [extensionMIMETable])
  have h2 := h (".png", "image/png") (by simp [extensionMIMETable])
  have h3 := h (".jpg", "image/jpeg") (by simp [extensionMIMETable])
  have h4 := h (".jpeg", "image/jpeg") (by simp [extensionMIMETable])
  have h5 := h (".gif", "image/gif") (by simp [extensionMIMETable])
  have h6 := h (".webp", "image/webp") (by simp [extensionMIMETable])
  have h7 := h (".svg", "image/svg+xml") (by simp [extensionMIMETable])
  have h8 := h (".bmp", "image/bmp") (by simp [extensionMIMETable])
  have h9 := h (".ico", "image/x-icon") (by simp [extensionMIMETable])
  simp only at h1 h2 h3 h4 h5 h6 h7 h8 h9
  simp [getContentType, h1, h2, h3, h4, h5, h6, h7, h8, h9]

theorem handleRequest_asset_content_type (lib : Lib) (r : Request) (d : String)
    (files : FileMap) (etags : EtagMap) (fd : fileData)
    (hm : r.Method ≠ "OPTIONS") (h1 : r.Path ≠ "/") (h2 : r.Path ≠ "/health")
    (h3 : r.Path ≠ "/coolify/install.sh") (hf : files (aliasRewrite r.Path) = some fd) :
    (respond lib r d files etags).responseHeader "Content-Type" =
      if getContentType lib (aliasRewrite r.Path) ≠ "" then
        [getContentType lib (aliasRewrite r.Path)] else [] := by
  have h3a := aliasRewrite_ne_install r.Path h3
  simp only [respond, handleRequest, hm, h1, h2, h3a, hf, if_false]
  split <;> split <;>
    simp [ResponseWriter.SetHeader, ResponseWriter.WriteHeader,
      ResponseWriter.responseHeader, ResponseWriter.new, ServeContent,
      StatusNotModified, *]

/-- C12: `getContentType` of a path is the table entry of the extension its
lowercase form ends in, and the empty string when it ends in none of the nine;
for a request that resolves to an asset the handler sets `Content-Type` to that
value when it is not empty and sets no `Content-Type` otherwise, whatever the
bytes of the asset are. -/
theorem getContentType_by_extension (lib : Lib) (p : String) (r : Request) (d : String)
    (files : FileMap) (etags : EtagMap) (fd : fileData)
    (hm : r.Method ≠ "OPTIONS") (h1 : r.Path ≠ "/") (h2 : r.Path ≠ "/health")
    (h3 : r.Path ≠ "/coolify/install.sh") (hf : files (aliasRewrite r.Path) = some fd) :
    (∀ e ∈ extensionMIMETable, hasSuffix (toLower lib p) e.1 = true →
      getContentType lib p = e.2) ∧
    ((∀ e ∈ extensionMIMETable, hasSuffix (toLower lib p) e.1 = false) →
      getContentType lib p = "") ∧
    ((respond lib r d files etags).responseHeader "Content-Type" =
      if getContentType lib (aliasRewrite r.Path) ≠ "" then
        [getContentType lib (aliasRewrite r.Path)] else []) ∧
    (∀ (files2 : FileMap) (fd2 : fileData), files2 (aliasRewrite r.Path) = some fd2 →
      (respond lib r d files2 etags).responseHeader "Content-Type" =
        (respond lib r d files etags).responseHeader "Content-Type") := by
  refine ⟨getContentType_table lib p, getContentType_otherwise lib p,
    handleRequest_asset_content_type lib r d files etags fd hm h1 h2 h3 hf, ?_⟩
  intro files2 fd2 hf2
  rw [handleRequest_asset_content_type lib r d files etags fd hm h1 h2 h3 hf,
    handleRequest_asset_content_type lib r d files2 etags fd2 hm h1 h2 h3 hf2]

theorem getContentType_by_extension_witness :
    ("GET" ≠ "OPTIONS" ∧ "/coolify/versions.json" ≠ "/" ∧
      "/coolify/versions.json" ≠ "/health" ∧
      "/coolify/versions.json" ≠ "/coolify/install.sh" ∧
      sampleFiles (aliasRewrite "/coolify/versions.json") =
        some { content := [123, 125], modTime := 7 }) ∧
    getContentType Lib.sample "/icons/logo.PNG" = "image/png" ∧
    (respond Lib.sample ⟨"GET", "/coolify/versions.json", Header.empty⟩ "coollabs.io"
      sampleFiles sampleEtags).responseHeader "Content-Type" =
      if getContentType Lib.sample (aliasRewrite "/coolify/versions.json") ≠ "" then
        [getContentType Lib.sample (aliasRewrite "/coolify/versions.json")] else [] :=
  have h := getContentType_by_extension Lib.sample "/icons/logo.PNG"
    ⟨"GET", "/coolify/versions.json", Header.empty⟩ "coollabs.io" sampleFiles sampleEtags
    { content := [123, 125], modTime := 7 }
    (by decide) (by decide) (by decide) (by decide) (by decide)
  ⟨⟨by decide, by decide, by decide, by decide, by decide⟩,
    h.1 (".png", "image/png") (by simp [extensionMIMETable]) (by decide), h.2.2.1⟩

/-! ### The root redirect and the health check -/

/-- C13 (as stated, refuted): with `BASE_FQDN` set to `münchen.de` the base
domain is `münchen.de`, and a request for `/` is answered with `Location`
`https://m%c3%bcnchen.de`, which is not `https://` followed by the base domain. -/
theorem root_location_escaped :
    "GET" ≠ "OPTIONS" ∧
    mainBaseFQDN (some "münchen.de") = "münchen.de" ∧
    (respond Lib.sample ⟨"GET", "/", Header.empty⟩ (mainBaseFQDN (some "münchen.de"))
      sampleFiles sampleEtags).status = 302 ∧
    (respond Lib.sample ⟨"GET", "/", Header.empty⟩ (mainBaseFQDN (some "münchen.de"))
      sampleFiles sampleEtags).responseHeader.Get "Location" = "https://m%c3%bcnchen.de" ∧
    (respond Lib.sample ⟨"GET", "/", Header.empty⟩ (mainBaseFQDN (some "münchen.de"))
      sampleFiles sampleEtags).responseHeader.Get "Location" ≠
        "https://" ++ mainBaseFQDN (some "münchen.de") := by
  decide

/-- C13 (amended): the base domain `main` computes is `coollabs.io` when
`BASE_FQDN` is unset or empty and the configured value otherwise; and for every
store a request that is not OPTIONS with path `/` is answered with status 302
and `Location` `https://` followed by that base domain, with the bytes outside
ASCII percent-escaped, which is the unchanged string when the base domain is
ASCII (as the default `coollabs.io` is). -/
theorem root_redirects_to_base_domain (lib : Lib) (method : String) (hdr : Header)
    (env : Option String) (files : FileMap) (etags : EtagMap) (hm : method ≠ "OPTIONS") :
    mainBaseFQDN none = "coollabs.io" ∧
    mainBaseFQDN (some "") = "coollabs.io" ∧
    (∀ v : String, v ≠ "" → mainBaseFQDN (some v) = v) ∧
    (respond lib ⟨method, "/", hdr⟩ (mainBaseFQDN env) files etags).wroteHeader = true ∧
    (respond lib ⟨method, "/", hdr⟩ (mainBaseFQDN env) files etags).status = 302 ∧
    (respond lib ⟨method, "/", hdr⟩ (mainBaseFQDN env) files etags).responseHeader.Get
      "Location" = hexEscapeNonASCII ("https://" ++ mainBaseFQDN env) ∧
    (isASCII (mainBaseFQDN env) = true →
      (respond lib ⟨method, "/", hdr⟩ (mainBaseFQDN env) files etags).responseHeader.Get
        "Location" = "https://" ++ mainBaseFQDN env) ∧
    isASCII (mainBaseFQDN none) = true ∧
    (respond lib ⟨method, "/", hdr⟩ (mainBaseFQDN env) files etags).served = none := by
  have hresp : respond lib ⟨method, "/", hdr⟩ (mainBaseFQDN env) files etags =
      Redirect lib
        (((ResponseWriter.new.SetHeader "Access-Control-Allow-Origin" "*").SetHeader
          "Access-Control-Allow-Methods" "GET, HEAD, OPTIONS").SetHeader
          "Access-Control-Allow-Headers" "Origin, X-Requested-With, Content-Type, Accept")
        ⟨method, "/", hdr⟩ ("https://" ++ mainBaseFQDN env) StatusFound := by
    simp [respond, handleRequest, hm]
  rw [hresp]
  refine ⟨by decide, by decide, ?_, ?_, ?_, ?_, ?_, by decide, ?_⟩
  · intro v hv
    simp [mainBaseFQDN, Getenv, hv]
  · exact (Redirect_status lib _ _ _ _ rfl).1
  · exact (Redirect_status lib _ _ _ _ rfl).2.1
  · exact Redirect_location lib _ _ _ _ rfl
  · intro ha
    rw [Redirect_location lib _ _ _ _ rfl]
    exact hexEscapeNonASCII_of_isASCII _ (isASCII_https _ ha)
  · exact (Redirect_status lib _ _ _ _ rfl).2.2

theorem root_redirects_to_base_domain_witness :
    "GET" ≠ "OPTIONS" ∧
    (respond Lib.sample ⟨"GET", "/", Header.empty⟩ (mainBaseFQDN none) sampleFiles
      sampleEtags).status = 302 ∧
    (respond Lib.sample ⟨"GET", "/", Header.empty⟩ (mainBaseFQDN none) sampleFiles
      sampleEtags).responseHeader.Get "Location" = "https://" ++ mainBaseFQDN none :=
  have h := root_redirects_to_base_domain Lib.sample "GET" Header.empty none sampleFiles
    sampleEtags (by decide)
  ⟨by decide, h.2.2.2.2.1, h.2.2.2.2.2.2.1 (by decide)⟩

/-- C15: for every store, base domain and request headers, a request that is
not OPTIONS with path `/health` is answered with status 200, `Content-Type`
`text/plain` and the body `healthy` followed by a newline, the same for every
store; the health probe exits with 0 exactly on a response with status 200, and
so on this one. -/
theorem health_check_response (lib : Lib) (method : String) (hdr : Header) (d : String)
    (files : FileMap) (etags : EtagMap) (hm : method ≠ "OPTIONS") :
    (respond lib ⟨method, "/health", hdr⟩ d files etags).wroteHeader = true ∧
    (respond lib ⟨method, "/health", hdr⟩ d files etags).status = 200 ∧
    (respond lib ⟨method, "/health", hdr⟩ d files etags).responseHeader.Get "Content-Type" =
      "text/plain" ∧
    (respond lib ⟨method, "/health", hdr⟩ d files etags).body = stringBytes "healthy\n" ∧
    stringBytes "healthy\n" = [104, 101, 97, 108, 116, 104, 121, 10] ∧
    (respond lib ⟨method, "/health", hdr⟩ d files etags).served = none ∧
    (∀ (files2 : FileMap) (etags2 : EtagMap),
      respond lib ⟨method, "/health", hdr⟩ d files2 etags2 =
        respond lib ⟨method, "/health", hdr⟩ d files etags) ∧
    (∀ g : Except Error Nat, healthcheckMain g = 0 ↔ g = .ok 200) ∧
    healthcheckMain (.ok (respond lib ⟨method, "/health", hdr⟩ d files etags).status) = 0 := by
  have hresp : ∀ (f : FileMap) (t : EtagMap), respond lib ⟨method, "/health", hdr⟩ d f t =
      ((((((ResponseWriter.new.SetHeader "Access-Control-Allow-Origin" "*").SetHeader
          "Access-Control-Allow-Methods" "GET, HEAD, OPTIONS").SetHeader
          "Access-Control-Allow-Headers"
          "Origin, X-Requested-With, Content-Type, Accept").SetHeader
          "Content-Type" "text/plain").WriteHeader StatusOK).Write
          (stringBytes "healthy\n")) := by
    intro f t
    simp [respond, handleRequest, hm]
  have hprobe : ∀ g : Except Error Nat, healthcheckMain g = 0 ↔ g = .ok 200 := by
    intro g
    cases g with
    | error e => simp [healthcheckMain]
    | ok code => simp [healthcheckMain, StatusOK]
  refine ⟨?_, ?_, ?_, ?_, by decide, ?_, ?_, hprobe, ?_⟩
  · simp [hresp, ResponseWriter.Write, ResponseWriter.WriteHeader, ResponseWriter.SetHeader,
      ResponseWriter.new]
  · simp [hresp, ResponseWriter.Write, ResponseWriter.WriteHeader, ResponseWriter.SetHeader,
      ResponseWriter.new, StatusOK]
  · simp [hresp, ResponseWriter.Write, ResponseWriter.WriteHeader, ResponseWriter.SetHeader,
      ResponseWriter.new, ResponseWriter.responseHeader, Header.Get]
  · simp [hresp, ResponseWriter.Write, ResponseWriter.WriteHeader, ResponseWriter.SetHeader,
      ResponseWriter.new]
  · simp [hresp, ResponseWriter.Write, ResponseWriter.WriteHeader, ResponseWriter.SetHeader,
      ResponseWriter.new]
  · intro f t
    rw [hresp f t, hresp files etags]
  · rw [hprobe]
    simp [hresp, ResponseWriter.Write, ResponseWriter.WriteHeader, ResponseWriter.SetHeader,
      ResponseWriter.new, StatusOK]

theorem health_check_response_witness :
    "GET" ≠ "OPTIONS" ∧
    (respond Lib.sample ⟨"GET", "/health", Header.empty⟩ "coollabs.io" sampleFiles
      sampleEtags).status = 200 ∧
    (respond Lib.sample ⟨"GET", "/health", Header.empty⟩ "coollabs.io" sampleFiles
      sampleEtags).body = stringBytes "healthy\n" :=
  have h := health_check_response Lib.sample "GET" Header.empty "coollabs.io" sampleFiles
    sampleEtags (by decide)
  ⟨by decide, h.2.1, h.2.2.2.1⟩

/-! ### Keys and tags of the store built by `main` -/

theorem mainLoad_keys (lib : Lib) (clock : Nat → Time) (jt it : Except Error (List Entry))
    (k : String) (h : (mainLoad lib clock jt it).files k ≠ none) :
    hasSuffix k ".json" = true ∨ isImageFile lib k = true := by
  unfold mainLoad at h
  simp only [] at h
  split at h
  · exact Or.inl (loadJSONFiles_present lib clock jt "json" "" 0 k h).json_suffix
  · by_cases hI : Hits (isImageFile lib) "" (walk it).1 k
    · exact Or.inr hI.image_suffix
    · have e := (loadImageFiles_eq_walk lib clock it "images" ""
        (loadJSONFiles lib clock jt "json" "" emptyMap emptyMap 0).files
        (loadJSONFiles lib clock jt "json" "" emptyMap emptyMap 0).etags
        (loadJSONFiles lib clock jt "json" "" emptyMap emptyMap 0).tick).2
      have m := (foldl_storeVisit_miss lib clock (isImageFile lib) "" k (walk it).1
        (((loadJSONFiles lib clock jt "json" "" emptyMap emptyMap 0).files,
         (loadJSONFiles lib clock jt "json" "" emptyMap emptyMap 0).etags),
         (loadJSONFiles lib clock jt "json" "" emptyMap emptyMap 0).tick) hI).1
      rw [← e] at m
      have h2 : (loadJSONFiles lib clock jt "json" "" emptyMap emptyMap 0).files k ≠ none := by
        intro hn
        apply h
        show (loadImageFiles lib clock it "images" ""
          (loadJSONFiles lib clock jt "json" "" emptyMap emptyMap 0).files
          (loadJSONFiles lib clock jt "json" "" emptyMap emptyMap 0).etags
          (loadJSONFiles lib clock jt "json" "" emptyMap emptyMap 0).tick).state.1.1 k = none
        rw [m]
        exact hn
      exact Or.inl (loadJSONFiles_present lib clock jt "json" "" 0 k h2).json_suffix

theorem mainLoad_tags (lib : Lib) (clock : Nat → Time) (jt it : Except Error (List Entry))
    (k : String) (fd : fileData) (h : (mainLoad lib clock jt it).files k = some fd) :
    (mainLoad lib clock jt it).etags k = some (etagOf lib fd.content) := by
  rcases mainLoad_touched lib clock jt it k with ⟨hf, _⟩ | ⟨fd1, hf1, ht1⟩
  · have hf2 : (mainLoad lib clock jt it).files k = none := hf
    rw [h] at hf2
    cases hf2
  · have hf2 : (mainLoad lib clock jt it).files k = some fd1 := hf1
    rw [h] at hf2
    cases hf2
    exact ht1

theorem getContentType_of_json (lib : Lib) (k : String) (h : hasSuffix k ".json" = true) :
    getContentType lib k = "application/json" :=
  getContentType_table lib k (".json", "application/json") (by simp [extensionMIMETable])
    (toLower_json_suffix lib k h)

theorem getContentType_of_image (lib : Lib) (k : String) (h : isImageFile lib k = true) :
    getContentType lib k ≠ "" ∧ startsWith (getContentType lib k) "image/" = true := by
  simp only [isImageFile, List.any_cons, List.any_nil, Bool.or_false, Bool.or_eq_true] at h
  rcases h with h | h | h | h | h | h | h | h
  · rw [getContentType_table lib k (".png", "image/png") (by simp [extensionMIMETable]) h]
    exact ⟨by decide, by decide⟩
  · rw [getContentType_table lib k (".jpg", "image/jpeg") (by simp [extensionMIMETable]) h]
    exact ⟨by decide, by decide⟩
  · rw [getContentType_table lib k (".jpeg", "image/jpeg") (by simp [extensionMIMETable]) h]
    exact ⟨by decide, by decide⟩
  · rw [getContentType_table lib k (".gif", "image/gif") (by simp [extensionMIMETable]) h]
    exact ⟨by decide, by decide⟩
  · rw [getContentType_table lib k (".webp", "image/webp") (by simp [extensionMIMETable]) h]
    exact ⟨by decide, by decide⟩
  · rw [getContentType_table lib k (".svg", "image/svg+xml") (by simp [extensionMIMETable]) h]
    exact ⟨by decide, by decide⟩
  · rw [getContentType_table lib k (".bmp", "image/bmp") (by simp [extensionMIMETable]) h]
    exact ⟨by decide, by decide⟩
  · rw [getContentType_table lib k (".ico", "image/x-icon") (by simp [extensionMIMETable]) h]
    exact ⟨by decide, by decide⟩

theorem mainLoad_content_type (lib : Lib) (clock : Nat → Time)
    (jt it : Except Error (List Entry)) (k : String)
    (h : (mainLoad lib clock jt it).files k ≠ none) : getContentType lib k ≠ "" := by
  rcases mainLoad_keys lib clock jt it k h with hj | hi
  · rw [getContentType_of_json lib k hj]
    decide
  · exact (getContentType_of_image lib k hi).1

/-- C16: a path that ends in a filename ending in `.json` has content type
`application/json`, and a path that ends in a filename accepted by `isImageFile`
has a content type that is not empty and begins with `image/`; so every key of
the store `main` builds has a content type that is not empty, and for a request
that resolves to an asset of that store the handler sets `Content-Type`. -/
theorem loaded_assets_have_content_type (lib : Lib) (n a : String) (clock : Nat → Time)
    (jt it : Except Error (List Entry)) (r : Request) (d : String) (fd : fileData)
    (hm : r.Method ≠ "OPTIONS") (h1 : r.Path ≠ "/") (h2 : r.Path ≠ "/health")
    (h3 : r.Path ≠ "/coolify/install.sh")
    (hf : (mainLoad lib clock jt it).files (aliasRewrite r.Path) = some fd) :
    (hasSuffix n ".json" = true → getContentType lib (a ++ n) = "application/json") ∧
    (isImageFile lib n = true → getContentType lib (a ++ n) ≠ "" ∧
      startsWith (getContentType lib (a ++ n)) "image/" = true) ∧
    (∀ k, (mainLoad lib clock jt it).files k ≠ none → getContentType lib k ≠ "") ∧
    getContentType lib (aliasRewrite r.Path) ≠ "" ∧
    (respond lib r d (mainLoad lib clock jt it).files
      (mainLoad lib clock jt it).etags).responseHeader "Content-Type" =
        [getContentType lib (aliasRewrite r.Path)] := by
  have hne : getContentType lib (aliasRewrite r.Path) ≠ "" :=
    mainLoad_content_type lib clock jt it _ (by rw [hf]; exact Option.some_ne_none _)
  refine ⟨?_, ?_, mainLoad_content_type lib clock jt it, hne, ?_⟩
  · intro h
    exact getContentType_of_json lib _ (hasSuffix_append_left a n ".json" h)
  · intro h
    exact getContentType_of_image lib _ (isImageFile_append_left lib a n h)
  · rw [handleRequest_asset_content_type lib r d _ _ fd hm h1 h2 h3 hf, if_pos hne]

theorem loaded_assets_have_content_type_witness :
    ("GET" ≠ "OPTIONS" ∧ "/coolify/versions.json" ≠ "/" ∧
      "/coolify/versions.json" ≠ "/health" ∧
      "/coolify/versions.json" ≠ "/coolify/install.sh" ∧
      (mainLoad Lib.sample sampleClock (.ok sampleJSONEntries) (.ok sampleImageEntries)).files
        (aliasRewrite "/coolify/versions.json") =
          some { content := [123, 125], modTime := 3 }) ∧
    (respond Lib.sample ⟨"GET", "/coolify/versions.json", Header.empty⟩ "coollabs.io"
      (mainLoad Lib.sample sampleClock (.ok sampleJSONEntries) (.ok sampleImageEntries)).files
      (mainLoad Lib.sample sampleClock (.ok sampleJSONEntries)
        (.ok sampleImageEntries)).etags).responseHeader "Content-Type" =
        [getContentType Lib.sample (aliasRewrite "/coolify/versions.json")] :=
  have h := loaded_assets_have_content_type Lib.sample "logo.PNG" "/icons/" sampleClock
    (.ok sampleJSONEntries) (.ok sampleImageEntries)
    ⟨"GET", "/coolify/versions.json", Header.empty⟩ "coollabs.io"
    { content := [123, 125], modTime := 3 }
    (by decide) (by decide) (by decide) (by decide) (by decide)
  ⟨⟨by decide, by decide, by decide, by decide, by decide⟩, h.2.2.2.2⟩

/-! ### Tokens are never empty -/

theorem hexBytes_length : ∀ (l : List UInt8), (l.flatMap hexByte).length = 2 * l.length
  | [] => rfl
  | b :: l => by
    simp only [List.flatMap_cons, List.length_append, hexBytes_length l, hexByte,
      List.length_cons, List.length_nil]
    omega

theorem hexDigit_mem : ∀ i : Fin 16, hexDigit i ∈ "0123456789abcdef".data := by
  decide

theorem hexBytes_digits : ∀ (l : List UInt8), ∀ ch ∈ l.flatMap hexByte,
    ch ∈ "0123456789abcdef".data
  | [], ch, h => by cases h
  | b :: l, ch, h => by
    simp only [List.flatMap_cons, List.mem_append, hexByte, List.mem_cons,
      List.mem_singleton, List.not_mem_nil, or_false] at h
    have hb := b.toNat_lt
    rcases h with (rfl | rfl) | h
    · exact hexDigit_mem ⟨b.toNat / 16, by omega⟩
    · exact hexDigit_mem ⟨b.toNat % 16, by omega⟩
    · exact hexBytes_digits l ch h

theorem etagOf_shape (lib : Lib) (c : Bytes) :
    etagOf lib c ≠ "" ∧
    ∃ hex : List Char, hex.length = 32 ∧ (∀ ch ∈ hex, ch ∈ "0123456789abcdef".data) ∧
      (etagOf lib c).data = '"' :: (hex ++ ['"']) := by
  refine ⟨?_, (lib.md5Sum c).val.flatMap hexByte, ?_, hexBytes_digits _, rfl⟩
  · intro h
    have := congrArg String.data h
    simp [etagOf, sprintfQuotedHex] at this
  · rw [hexBytes_length, (lib.md5Sum c).property]

/-- C17: every token the loaders write is a double quote, 32 lowercase
hexadecimal digits and a double quote, so it is not empty; for the store `main`
builds, a request that is not OPTIONS, resolves to an asset and has no or an
empty `If-None-Match` is not answered 304 by the handler but handed to
`http.ServeContent` with the bytes of the asset; for a store in which `files` has
the key and `etags` does not, the same request is answered 304 with an empty
body. -/
theorem empty_if_none_match_serves_content (lib : Lib) (c : Bytes) (clock : Nat → Time)
    (jt it : Except Error (List Entry)) (r : Request) (d : String) (fd fd2 : fileData)
    (files : FileMap) (etags : EtagMap)
    (hm : r.Method ≠ "OPTIONS") (h1 : r.Path ≠ "/") (h2 : r.Path ≠ "/health")
    (h3 : r.Path ≠ "/coolify/install.sh") (hnm : r.Header.Get "If-None-Match" = "")
    (hf : (mainLoad lib clock jt it).files (aliasRewrite r.Path) = some fd)
    (hf2 : files (aliasRewrite r.Path) = some fd2)
    (ht2 : etags (aliasRewrite r.Path) = none) :
    (etagOf lib c ≠ "" ∧
      ∃ hex : List Char, hex.length = 32 ∧ (∀ ch ∈ hex, ch ∈ "0123456789abcdef".data) ∧
        (etagOf lib c).data = '"' :: (hex ++ ['"'])) ∧
    (respond lib r d (mainLoad lib clock jt it).files
      (mainLoad lib clock jt it).etags).wroteHeader = false ∧
    (respond lib r d (mainLoad lib clock jt it).files
      (mainLoad lib clock jt it).etags).served =
        some { request := { r with Path := aliasRewrite r.Path },
               name := lib.filepathBase (aliasRewrite r.Path),
               modtime := fd.modTime, content := fd.content } ∧
    (respond lib r d files etags).wroteHeader = true ∧
    (respond lib r d files etags).status = 304 ∧
    (respond lib r d files etags).body = [] ∧
    (respond lib r d files etags).served = none := by
  have h3a := aliasRewrite_ne_install r.Path h3
  have ht := mainLoad_tags lib clock jt it _ fd hf
  have hne : ¬ ("" = etagOf lib fd.content) := fun h => (etagOf_shape lib fd.content).1 h.symm
  refine ⟨etagOf_shape lib c, ?_, ?_, ?_, ?_, ?_, ?_⟩
  · simp only [respond, handleRequest, hm, h1, h2, h3a, hf, ht, hnm, if_false,
      Option.getD_some, hne]
    split <;> simp [ResponseWriter.SetHeader, ResponseWriter.new, ServeContent]
  · simp only [respond, handleRequest, hm, h1, h2, h3a, hf, ht, hnm, if_false,
      Option.getD_some, hne]
    split <;> simp [ResponseWriter.SetHeader, ResponseWriter.new, ServeContent]
  · simp only [respond, handleRequest, hm, h1, h2, h3a, hf2, ht2, hnm, if_false,
      Option.getD_none, if_true]
    split <;> simp [ResponseWriter.SetHeader, ResponseWriter.new, ResponseWriter.WriteHeader]
  · simp only [respond, handleRequest, hm, h1, h2, h3a, hf2, ht2, hnm, if_false,
      Option.getD_none, if_true]
    split <;> simp [ResponseWriter.SetHeader, ResponseWriter.new, ResponseWriter.WriteHeader,
      StatusNotModified]
  · simp only [respond, handleRequest, hm, h1, h2, h3a, hf2, ht2, hnm, if_false,
      Option.getD_none, if_true]
    split <;> simp [ResponseWriter.SetHeader, ResponseWriter.new, ResponseWriter.WriteHeader]
  · simp only [respond, handleRequest, hm, h1, h2, h3a, hf2, ht2, hnm, if_false,
      Option.getD_none, if_true]
    split <;> simp [ResponseWriter.SetHeader, ResponseWriter.new, ResponseWriter.WriteHeader]

theorem empty_if_none_match_serves_content_witness :
    ("GET" ≠ "OPTIONS" ∧ "/coolify/versions.json" ≠ "/" ∧
      "/coolify/versions.json" ≠ "/health" ∧
      "/coolify/versions.json" ≠ "/coolify/install.sh" ∧
      Header.empty.Get "If-None-Match" = "" ∧
      (mainLoad Lib.sample sampleClock (.ok sampleJSONEntries) (.ok sampleImageEntries)).files
        (aliasRewrite "/coolify/versions.json") =
          some { content := [123, 125], modTime := 3 } ∧
      sampleFiles (aliasRewrite "/coolify/versions.json") =
        some { content := [123, 125], modTime := 7 } ∧
      sampleNoEtags (aliasRewrite "/coolify/versions.json") = none) ∧
    (respond Lib.sample ⟨"GET", "/coolify/versions.json", Header.empty⟩ "coollabs.io"
      (mainLoad Lib.sample sampleClock (.ok sampleJSONEntries) (.ok sampleImageEntries)).files
      (mainLoad Lib.sample sampleClock (.ok sampleJSONEntries)
        (.ok sampleImageEntries)).etags).wroteHeader = false ∧
    (respond Lib.sample ⟨"GET", "/coolify/versions.json", Header.empty⟩ "coollabs.io"
      sampleFiles sampleNoEtags).status = 304 :=
  have h := empty_if_none_match_serves_content Lib.sample [] sampleClock
    (.ok sampleJSONEntries) (.ok sampleImageEntries)
    ⟨"GET", "/coolify/versions.json", Header.empty⟩ "coollabs.io"
    { content := [123, 125], modTime := 3 } { content := [123, 125], modTime := 7 }
    sampleFiles sampleNoEtags
    (by decide) (by decide) (by decide) (by decide) (by decide) (by decide) (by decide)
    (by decide)
  ⟨⟨by decide, by decide, by decide, by decide, by decide, by decide, by decide, by decide⟩,
    h.2.1, h.2.2.2.2.1⟩

/-! ### No shell script in the store -/

theorem respond_not_found (lib : Lib) (r : Request) (d : String)
    (files : FileMap) (etags : EtagMap)
    (hm : r.Method ≠ "OPTIONS") (h1 : r.Path ≠ "/") (h2 : r.Path ≠ "/health")
    (h3 : r.Path ≠ "/coolify/install.sh") (hf : files (aliasRewrite r.Path) = none) :
    (respond lib r d files etags).wroteHeader = true ∧
    (respond lib r d files etags).status = 302 ∧
    (respond lib r d files etags).responseHeader.Get "Location" =
      hexEscapeNonASCII ("https://" ++ d) ∧
    (isASCII d = true →
      (respond lib r d files etags).responseHeader.Get "Location" = "https://" ++ d) ∧
    (respond lib r d files etags).served = none := by
  have h3a := aliasRewrite_ne_install r.Path h3
  have hresp : respond lib r d files etags =
      Redirect lib
        (((ResponseWriter.new.SetHeader "Access-Control-Allow-Origin" "*").SetHeader
          "Access-Control-Allow-Methods" "GET, HEAD, OPTIONS").SetHeader
          "Access-Control-Allow-Headers" "Origin, X-Requested-With, Content-Type, Accept")
        { r with Path := aliasRewrite r.Path } ("https://" ++ d) StatusFound := by
    simp [respond, handleRequest, hm, h1, h2, h3a, hf]
  rw [hresp]
  refine ⟨(Redirect_status lib _ _ _ _ rfl).1, (Redirect_status lib _ _ _ _ rfl).2.1,
    Redirect_location lib _ _ _ _ rfl, ?_, (Redirect_status lib _ _ _ _ rfl).2.2⟩
  intro ha
  rw [Redirect_location lib _ _ _ _ rfl]
  exact hexEscapeNonASCII_of_isASCII _ (isASCII_https d ha)

theorem upgrade_sh_not_image (lib : Lib) : isImageFile lib "/upgrade.sh" = false := by
  rfl

theorem mainLoad_no_upgrade_sh (lib : Lib) (clock : Nat → Time)
    (jt it : Except Error (List Entry)) :
    (mainLoad lib clock jt it).files "/upgrade.sh" = none := by
  by_contra h
  rcases mainLoad_keys lib clock jt it "/upgrade.sh" h with hj | hi
  · exact absurd hj (by decide)
  · rw [upgrade_sh_not_image lib] at hi
    exact Bool.noConfusion hi

/-- C18 (as stated, refuted): against the store built from the sample trees,
with the base domain `münchen.de`, a request for `/coolify/upgrade.sh` is
answered 302 with `Location` `https://m%c3%bcnchen.de`, which is not `https://`
followed by the base domain. -/
theorem upgrade_sh_location_escaped :
    "GET" ≠ "OPTIONS" ∧
    (respond Lib.sample ⟨"GET", "/coolify/upgrade.sh", Header.empty⟩ "münchen.de"
      (mainLoad Lib.sample sampleClock (.ok sampleJSONEntries) (.ok sampleImageEntries)).files
      (mainLoad Lib.sample sampleClock (.ok sampleJSONEntries)
        (.ok sampleImageEntries)).etags).status = 302 ∧
    (respond Lib.sample ⟨"GET", "/coolify/upgrade.sh", Header.empty⟩ "münchen.de"
      (mainLoad Lib.sample sampleClock (.ok sampleJSONEntries) (.ok sampleImageEntries)).files
      (mainLoad Lib.sample sampleClock (.ok sampleJSONEntries)
        (.ok sampleImageEntries)).etags).responseHeader.Get "Location" =
        "https://m%c3%bcnchen.de" ∧
    (respond Lib.sample ⟨"GET", "/coolify/upgrade.sh", Header.empty⟩ "münchen.de"
      (mainLoad Lib.sample sampleClock (.ok sampleJSONEntries) (.ok sampleImageEntries)).files
      (mainLoad Lib.sample sampleClock (.ok sampleJSONEntries)
        (.ok sampleImageEntries)).etags).responseHeader.Get "Location" ≠
        "https://" ++ "münchen.de" := by
  decide

/-- C18 (amended): every key of the store `main` builds ends in `.json` or, in
lowercase, in one of the eight image extensions; so `/upgrade.sh` is not a key,
and a request that is not OPTIONS for `/coolify/upgrade.sh` or `/upgrade.sh` is
answered, not with a file, but with status 302 and `Location` `https://`
followed by the base domain with its bytes outside ASCII percent-escaped, which
is the unchanged string when the base domain is ASCII. -/
theorem upgrade_sh_is_redirected (lib : Lib) (clock : Nat → Time)
    (jt it : Except Error (List Entry)) (method : String) (hdr : Header) (d : String)
    (hm : method ≠ "OPTIONS") :
    (∀ k, (mainLoad lib clock jt it).files k ≠ none →
      hasSuffix k ".json" = true ∨
      ∃ ext ∈ [".png", ".jpg", ".jpeg", ".gif", ".webp", ".svg", ".bmp", ".ico"],
        hasSuffix (toLower lib k) ext = true) ∧
    (mainLoad lib clock jt it).files "/upgrade.sh" = none ∧
    ((respond lib ⟨method, "/coolify/upgrade.sh", hdr⟩ d (mainLoad lib clock jt it).files
        (mainLoad lib clock jt it).etags).wroteHeader = true ∧
      (respond lib ⟨method, "/coolify/upgrade.sh", hdr⟩ d (mainLoad lib clock jt it).files
        (mainLoad lib clock jt it).etags).status = 302 ∧
      (respond lib ⟨method, "/coolify/upgrade.sh", hdr⟩ d (mainLoad lib clock jt it).files
        (mainLoad lib clock jt it).etags).responseHeader.Get "Location" =
          hexEscapeNonASCII ("https://" ++ d) ∧
      (isASCII d = true →
        (respond lib ⟨method, "/coolify/upgrade.sh", hdr⟩ d (mainLoad lib clock jt it).files
          (mainLoad lib clock jt it).etags).responseHeader.Get "Location" =
            "https://" ++ d) ∧
      (respond lib ⟨method, "/coolify/upgrade.sh", hdr⟩ d (mainLoad lib clock jt it).files
        (mainLoad lib clock jt it).etags).served = none) ∧
    ((respond lib ⟨method, "/upgrade.sh", hdr⟩ d (mainLoad lib clock jt it).files
        (mainLoad lib clock jt it).etags).wroteHeader = true ∧
      (respond lib ⟨method, "/upgrade.sh", hdr⟩ d (mainLoad lib clock jt it).files
        (mainLoad lib clock jt it).etags).status = 302 ∧
      (respond lib ⟨method, "/upgrade.sh", hdr⟩ d (mainLoad lib clock jt it).files
        (mainLoad lib clock jt it).etags).responseHeader.Get "Location" =
          hexEscapeNonASCII ("https://" ++ d) ∧
      (isASCII d = true →
        (respond lib ⟨method, "/upgrade.sh", hdr⟩ d (mainLoad lib clock jt it).files
          (mainLoad lib clock jt it).etags).responseHeader.Get "Location" =
            "https://" ++ d) ∧
      (respond lib ⟨method, "/upgrade.sh", hdr⟩ d (mainLoad lib clock jt it).files
        (mainLoad lib clock jt it).etags).served = none) := by
  have hno := mainLoad_no_upgrade_sh lib clock jt it
  refine ⟨?_, hno, ?_, ?_⟩
  · intro k hk
    rcases mainLoad_keys lib clock jt it k hk with hj | hi
    · exact Or.inl hj
    · right
      simpa [isImageFile, List.any_eq_true] using hi
  · exact respond_not_found lib ⟨method, "/coolify/upgrade.sh", hdr⟩ d _ _ hm
      (show "/coolify/upgrade.sh" ≠ "/" by decide)
      (show "/coolify/upgrade.sh" ≠ "/health" by decide)
      (show "/coolify/upgrade.sh" ≠ "/coolify/install.sh" by decide)
      (by simpa [aliasRewrite] using hno)
  · exact respond_not_found lib ⟨method, "/upgrade.sh", hdr⟩ d _ _ hm
      (show "/upgrade.sh" ≠ "/" by decide)
      (show "/upgrade.sh" ≠ "/health" by decide)
      (show "/upgrade.sh" ≠ "/coolify/install.sh" by decide)
      (by simpa [aliasRewrite] using hno)

theorem upgrade_sh_is_redirected_witness :
    "GET" ≠ "OPTIONS" ∧
    (mainLoad Lib.sample sampleClock (.ok sampleJSONEntries) (.ok sampleImageEntries)).files
      "/upgrade.sh" = none ∧
    (respond Lib.sample ⟨"GET", "/coolify/upgrade.sh", Header.empty⟩ "coollabs.io"
      (mainLoad Lib.sample sampleClock (.ok sampleJSONEntries) (.ok sampleImageEntries)).files
      (mainLoad Lib.sample sampleClock (.ok sampleJSONEntries)
        (.ok sampleImageEntries)).etags).status = 302 ∧
    (respond Lib.sample ⟨"GET", "/coolify/upgrade.sh", Header.empty⟩ "coollabs.io"
      (mainLoad Lib.sample sampleClock (.ok sampleJSONEntries) (.ok sampleImageEntries)).files
      (mainLoad Lib.sample sampleClock (.ok sampleJSONEntries)
        (.ok sampleImageEntries)).etags).responseHeader.Get "Location" =
        "https://" ++ "coollabs.io" :=
  have h := upgrade_sh_is_redirected Lib.sample sampleClock (.ok sampleJSONEntries)
    (.ok sampleImageEntries) "GET" Header.empty "coollabs.io" (by decide)
  ⟨by decide, h.2.1, h.2.2.1.2.1, h.2.2.1.2.2.2.1 (by decide)⟩

/-! ### The shape of the keys -/

mutual
theorem walkEntries_read_hasFile : ∀ (es : List Entry), ∀ v ∈ (walkEntries es).1,
    ∀ c, v.read = .ok c → HasFile es v.dirs v.name c
  | [], v, hv, _, _ => by simp [walkEntries] at hv
  | e :: rest, v, hv, c, hc => by
    have hv1 : v ∈ (walkEntry e).1 ∨ v ∈ (walkEntries rest).1 := by
      simp only [walkEntries] at hv
      cases he : (walkEntry e).2 with
      | some err =>
        simp only [he] at hv
        exact Or.inl hv
      | none =>
        simp only [he] at hv
        exact List.mem_append.1 hv
    rcases hv1 with h1 | h2
    · exact walkEntry_read_hasFile e rest v h1 c hc
    · exact (walkEntries_read_hasFile rest v h2 c hc).mono
        (fun x hx => List.mem_cons_of_mem _ hx)
theorem walkEntry_read_hasFile : ∀ (e : Entry) (rest : List Entry), ∀ v ∈ (walkEntry e).1,
    ∀ c, v.read = .ok c → HasFile (e :: rest) v.dirs v.name c
  | .file name read, rest, v, hv, c, hc => by
    simp only [walkEntry, List.mem_singleton] at hv
    subst hv
    simp only at hc
    subst hc
    exact HasFile.inRoot (List.mem_cons_self _ _)
  | .dir name (.error err), _, v, hv, _, _ => by simp [walkEntry, walk] at hv
  | .dir name (.ok sub), rest, v, hv, c, hc => by
    simp only [walkEntry, walk, List.mem_map] at hv
    obtain ⟨w, hw, rfl⟩ := hv
    exact HasFile.inDir (List.mem_cons_self _ _) (walkEntries_read_hasFile sub w hw c hc)
end

theorem HasFile.first_segment {es : List Entry} {ds : List String} {name : String}
    {c : Bytes} (h : HasFile es ds name c) :
    ∃ e ∈ es, (ds ++ [name]).head? = some e.Name := by
  cases h with
  | inRoot hm => exact ⟨_, hm, rfl⟩
  | inDir hm _ => exact ⟨_, hm, rfl⟩

theorem startsWith_slash_iff (s : String) :
    startsWith s "/" = true ↔ ∃ t, s.data = '/' :: t := by
  simp only [startsWith, List.isPrefixOf_iff_prefix]
  constructor
  · rintro ⟨t, ht⟩
    exact ⟨t, ht.symm⟩
  · rintro ⟨t, ht⟩
    exact ⟨t, ht.symm⟩

theorem key_startsWith_slash (pfx : String) (ds : List String) (name : String)
    (hp : pfx = "" ∨ startsWith pfx "/" = true) :
    startsWith (pfx ++ joinSegs ds ++ "/" ++ name) "/" = true := by
  rw [startsWith_slash_iff]
  rcases hp with rfl | hp
  · cases ds with
    | nil => exact ⟨name.data, by simp [joinSegs, String.data_append]⟩
    | cons d ds =>
      exact ⟨d.data ++ (joinSegs ds).data ++ ['/'] ++ name.data, by
        simp [joinSegs, String.data_append]⟩
  · obtain ⟨t, ht⟩ := (startsWith_slash_iff pfx).1 hp
    exact ⟨t ++ (joinSegs ds).data ++ ['/'] ++ name.data, by
      simp [String.data_append, ht]⟩

theorem Hits.describe {elig : String → Bool} {pfx : String} {l : Except Error (List Entry)}
    {k : String} (hp : pfx = "" ∨ startsWith pfx "/" = true)
    (h : Hits elig pfx (walk l).1 k) :
    ∃ es ds name c, l = .ok es ∧ HasFile es ds name c ∧ elig name = true ∧
      k = pfx ++ joinSegs ds ++ "/" ++ name ∧ startsWith k "/" = true ∧
      ∃ e ∈ es, (ds ++ [name]).head? = some e.Name := by
  obtain ⟨v, hv, he, ⟨c, hc⟩, hk⟩ := h
  cases l with
  | error err => simp [walk] at hv
  | ok es =>
    have hf := walkEntries_read_hasFile es v (by simpa [walk] using hv) c hc
    have hk1 : k = pfx ++ joinSegs v.dirs ++ "/" ++ v.name := by
      rw [← hk, Visit.relPath]
      simp only [String.append_assoc]
    exact ⟨es, v.dirs, v.name, c, rfl, hf, he, hk1,
      by rw [hk1]; exact key_startsWith_slash pfx _ _ hp, hf.first_segment⟩

/-- C14: when a loader is started with a prefix that is empty or begins with a
slash, every key it changes in `files` and `etags` begins with a slash and is
the prefix followed by, each preceded by a slash, the names of the directories
from the tree root down to an eligible file and the name of that file; its first
segment after the prefix is the name of an entry of the root listing; and the
directory argument (`json`, `images`) does not enter the maps at all. -/
theorem loader_keys_are_absolute (lib : Lib) (clock : Nat → Time) (tick : Nat)
    (l : Except Error (List Entry)) (dir dir2 pfx : String) (files : FileMap)
    (etags : EtagMap) (hp : pfx = "" ∨ startsWith pfx "/" = true) :
    (∀ k, ((loadJSONFiles lib clock l dir pfx files etags tick).files k = files k ∧
          (loadJSONFiles lib clock l dir pfx files etags tick).etags k = etags k) ∨
        ∃ es ds name c, l = .ok es ∧ HasFile es ds name c ∧ hasSuffix name ".json" = true ∧
          k = pfx ++ joinSegs ds ++ "/" ++ name ∧ startsWith k "/" = true ∧
          ∃ e ∈ es, (ds ++ [name]).head? = some e.Name) ∧
    (∀ k, ((loadImageFiles lib clock l dir pfx files etags tick).files k = files k ∧
          (loadImageFiles lib clock l dir pfx files etags tick).etags k = etags k) ∨
        ∃ es ds name c, l = .ok es ∧ HasFile es ds name c ∧ isImageFile lib name = true ∧
          k = pfx ++ joinSegs ds ++ "/" ++ name ∧ startsWith k "/" = true ∧
          ∃ e ∈ es, (ds ++ [name]).head? = some e.Name) ∧
    (loadJSONFiles lib clock l dir2 pfx files etags tick).maps =
      (loadJSONFiles lib clock l dir pfx files etags tick).maps ∧
    (loadImageFiles lib clock l dir2 pfx files etags tick).maps =
      (loadImageFiles lib clock l dir pfx files etags tick).maps := by
  have ej := (loadJSONFiles_eq_walk lib clock l dir pfx files etags tick).2
  have ei := (loadImageFiles_eq_walk lib clock l dir pfx files etags tick).2
  refine ⟨?_, ?_, ?_, ?_⟩
  · intro k
    by_cases h : Hits isJSONFile pfx (walk l).1 k
    · exact Or.inr (Hits.describe hp h)
    · have m := foldl_storeVisit_miss lib clock isJSONFile pfx k (walk l).1
        ((files, etags), tick) h
      rw [← ej] at m
      exact Or.inl m
  · intro k
    by_cases h : Hits (isImageFile lib) pfx (walk l).1 k
    · exact Or.inr (Hits.describe hp h)
    · have m := foldl_storeVisit_miss lib clock (isImageFile lib) pfx k (walk l).1
        ((files, etags), tick) h
      rw [← ei] at m
      exact Or.inl m
  · rw [← LoadResult.state_maps, ← LoadResult.state_maps, ej,
      (loadJSONFiles_eq_walk lib clock l dir2 pfx files etags tick).2]
  · rw [← LoadResult.state_maps, ← LoadResult.state_maps, ei,
      (loadImageFiles_eq_walk lib clock l dir2 pfx files etags tick).2]

theorem loader_keys_are_absolute_witness :
    (("" : String) = "" ∨ startsWith "" "/" = true) ∧
    (loadJSONFiles Lib.sample sampleClock sampleJSONTree "elsewhere" "" emptyMap emptyMap
        0).maps =
      (loadJSONFiles Lib.sample sampleClock sampleJSONTree "json" "" emptyMap emptyMap
        0).maps ∧
    (∀ k, ((loadImageFiles Lib.sample sampleClock sampleImageTree "images" "" emptyMap
          emptyMap 0).files k = (emptyMap : FileMap) k ∧
        (loadImageFiles Lib.sample sampleClock sampleImageTree "images" "" emptyMap
          emptyMap 0).etags k = (emptyMap : EtagMap) k) ∨
      ∃ es ds name c, sampleImageTree = .ok es ∧ HasFile es ds name c ∧
        isImageFile Lib.sample name = true ∧
        k = "" ++ joinSegs ds ++ "/" ++ name ∧ startsWith k "/" = true ∧
        ∃ e ∈ es, (ds ++ [name]).head? = some e.Name) :=
  have h := loader_keys_are_absolute Lib.sample sampleClock 0 sampleJSONTree "json"
    "elsewhere" "" emptyMap emptyMap (Or.inl rfl)
  have h2 := loader_keys_are_absolute Lib.sample sampleClock 0 sampleImageTree "images"
    "elsewhere" "" emptyMap emptyMap (Or.inl rfl)
  ⟨Or.inl rfl, h.2.2.1, h2.2.1⟩

end CoollabsCdn
